import Mathlib

/-!
Verification development for the MediScan backend core
(`backend/server.js`, `backend/ai/fraudDetection.js`, `backend/models/*`).

The unit ledger, the trust/anomaly engine and the verification
orchestrator are embedded shallowly: each Express route handler becomes a
pure function from a server state (the Mongo collections) and the request
data to a result and a new state.  JavaScript numbers that the code
produces with `parseInt` are modeled as `Int`; e-mail matching follows the
source's `toLowerCase()` comparisons; JS falsy checks on strings (`!x`,
`x || d`) are modeled explicitly.
-/

namespace MediScan

/-- Action strings stored in `ownerHistory[].action` by `server.js`:
`"REGISTERED"`, `"TRANSFERRED"`, `"PURCHASED"`. -/
inductive HAction where
  | REGISTERED
  | TRANSFERRED
  | PURCHASED
deriving DecidableEq

/-- Batch status strings: `"ACTIVE"`, `"SOLD_OUT"`, `"BLOCKED"`
(`models/Medicine.js`, default `"ACTIVE"`). -/
inductive Status where
  | ACTIVE
  | SOLD_OUT
  | BLOCKED
deriving DecidableEq

/-- The status as the string stored in the record (used by the integrity
hash input). -/
def Status.str : Status → String
  | .ACTIVE => "ACTIVE"
  | .SOLD_OUT => "SOLD_OUT"
  | .BLOCKED => "BLOCKED"

/-- One entry of `Medicine.ownerHistory` (`models/Medicine.js`).  The
source field `from` ("who transferred/sold this") is rendered `fromParty`
because `from` is reserved in Lean; it is absent (`none`) on the initial
`REGISTERED` entry.  Times are modeled as integers. -/
structure HistEntry where
  owner : String
  role : String
  action : HAction
  unitsPurchased : Int
  fromParty : Option String
  time : Int
deriving DecidableEq

/-- A `Medicine` document (`models/Medicine.js`).  `trustScore` and
`integrityHash` are the derived fields that `server.js` assigns on the
document during a successful verification; they start unset. -/
structure Medicine where
  batchID : String
  name : String
  manufacturer : String
  mfgDate : String
  expDate : String
  totalUnits : Int
  remainingUnits : Int
  currentOwner : String
  status : Status
  ownerHistory : List HistEntry
  trustScore : Option Int
  integrityHash : Option String
  createdAt : Int
deriving DecidableEq

/-- A `ScanLog` document (`models/ScanLog.js`, extended schema with
`location`, `deviceId`, `user`, `anomaly`). -/
structure ScanEntry where
  batchID : String
  result : String
  scanner : String
  time : Int
  location : String
  deviceId : String
  user : String
  anomaly : Bool
deriving DecidableEq

/-- An `AuditLog` document (`models/AuditLog.js`); the free-form `details`
payload is not modeled, no claim concerns it. -/
structure AuditEntry where
  action : String
  user : String
  batchID : String
deriving DecidableEq

/-- The persistent state the routes read and write: the three Mongo
collections. -/
structure ServerState where
  medicines : List Medicine
  scanLogs : List ScanEntry
  audits : List AuditEntry
deriving DecidableEq

/-- JS `x || d` on an optional string value: `undefined` and `""` are
falsy and fall back to the default. -/
def jsOr (x : Option String) (d : String) : String :=
  match x with
  | none => d
  | some v => if v == "" then d else v

/-- JS `c.toLowerCase()` on one character, for the ASCII range the
e-mails use: `A`..`Z` (codes 65..90) map 32 higher, everything else is
unchanged (the rule of `Char.toLower`, written so that it reduces). -/
def lowerChar (c : Char) : Char :=
  if 65 ≤ c.toNat ∧ c.toNat ≤ 90 then Char.ofNat (c.toNat + 32) else c

/-- JS `s.toLowerCase()` (the source's e-mails are ASCII). -/
def lower (s : String) : String := ⟨s.data.map lowerChar⟩

/-- JS `h.owner.toLowerCase() === userEmail` where `userEmail` is already
lower-cased by the caller. -/
def ownerMatches (h : HistEntry) (userEmail : String) : Bool :=
  lower h.owner == userEmail

/-- JS `h.from && h.from.toLowerCase() === userEmail`: a missing or empty
`from` is falsy and never matches. -/
def fromMatches (h : HistEntry) (userEmail : String) : Bool :=
  match h.fromParty with
  | none => false
  | some f => if f == "" then false else lower f == userEmail

/-- `receivedUnits` accumulation of the balance replay loop shared by
`GET /medicine/list`, `POST /medicine/transfer/:batchID` and
`POST /medicine/purchase/:batchID`: a `REGISTERED` entry naming the user
credits `med.totalUnits`, a `TRANSFERRED` entry naming the user as
recipient credits its `unitsPurchased`. -/
def histReceived (total : Int) (userEmail : String) : List HistEntry → Int
  | [] => 0
  | h :: t =>
      (if h.action = .REGISTERED ∧ ownerMatches h userEmail then total else 0)
      + (if h.action = .TRANSFERRED ∧ ownerMatches h userEmail then h.unitsPurchased else 0)
      + histReceived total userEmail t

/-- `transferredOutUnits` accumulation: `TRANSFERRED` entries whose `from`
matches the user. -/
def histTransferredOut (userEmail : String) : List HistEntry → Int
  | [] => 0
  | h :: t =>
      (if h.action = .TRANSFERRED ∧ fromMatches h userEmail then h.unitsPurchased else 0)
      + histTransferredOut userEmail t

/-- `soldUnits` accumulation: `PURCHASED` entries whose `from` matches the
user. -/
def histSold (userEmail : String) : List HistEntry → Int
  | [] => 0
  | h :: t =>
      (if h.action = .PURCHASED ∧ fromMatches h userEmail then h.unitsPurchased else 0)
      + histSold userEmail t

/-- `availableUnits = receivedUnits - transferredOutUnits - soldUnits`,
the derived balance of a (lower-cased) party over an event history. -/
def availableUnits (total : Int) (hist : List HistEntry) (userEmail : String) : Int :=
  histReceived total userEmail hist - histTransferredOut userEmail hist - histSold userEmail hist

/-- Error responses of the ledger routes, with the data their JSON bodies
carry: the transfer route's insufficiency response includes both
`available` and `requested`; the purchase route's insufficiency response
says only `Only N units available`. -/
inductive LedgerErr where
  | missingFields
  | invalidUnits
  | batchNotFound
  | batchExists
  | notActive
  | insufficientUnits (available requested : Int)
  | noUnitsToTransfer (currentOwner requestedBy : String)
  | noUnitsToSell (currentOwner requestedBy : String)
  | insufficientStock (available : Int)
deriving DecidableEq

/-- `Medicine.findOne({ batchID })`. -/
def findMedicine (s : ServerState) (batchID : String) : Option Medicine :=
  s.medicines.find? (fun m => m.batchID == batchID)

/-- `med.save()` after mutating a found document: the stored record with
that `batchID` becomes the new document. -/
def updateMedicine (s : ServerState) (m' : Medicine) : ServerState :=
  { s with medicines := s.medicines.map (fun m => if m.batchID == m'.batchID then m' else m) }

/-- `POST /medicine/register` (`server.js`).  The body's `totalUnits` is
modeled post-`parseInt` as an integer, with the JS falsy missing-field
check `!totalUnits` corresponding to the value `0`; the handler then
rejects `units <= 0` and an already registered `batchID`, and otherwise
creates the batch: all units remaining, `currentOwner` the actor, status
`ACTIVE`, and a single `REGISTERED` history entry with `unitsPurchased: 0`.
No upper bound on `totalUnits` is checked. -/
def registerOp (s : ServerState) (actorEmail actorRole : String)
    (batchID name manufacturer mfgDate expDate : String) (totalUnits : Int) (t : Int) :
    Except LedgerErr ServerState :=
  if batchID = "" ∨ name = "" ∨ manufacturer = "" ∨ mfgDate = "" ∨ expDate = "" ∨ totalUnits = 0 then
    .error .missingFields
  else if totalUnits ≤ 0 then
    .error .invalidUnits
  else
    match findMedicine s batchID with
    | some _ => .error .batchExists
    | none =>
        let med : Medicine :=
          { batchID := batchID, name := name, manufacturer := manufacturer,
            mfgDate := mfgDate, expDate := expDate,
            totalUnits := totalUnits, remainingUnits := totalUnits,
            currentOwner := actorEmail, status := .ACTIVE,
            ownerHistory := [⟨actorEmail, actorRole, .REGISTERED, 0, none, t⟩],
            trustScore := none, integrityHash := none, createdAt := t }
        .ok { s with medicines := s.medicines ++ [med] }

/-- `POST /medicine/transfer/:batchID` (`server.js`): validates the body,
finds the batch, requires status `ACTIVE`, replays the actor's available
balance, rejects an over-draw with the available and requested amounts,
reduces `remainingUnits` only when the actor is `currentOwner`
(case-insensitively), and appends the `TRANSFERRED` entry.  The
`availableUnits === 0` branch of the source is kept although it is
unreachable after the `availableUnits < units` check (since `units >= 1`).
No status transition happens here. -/
def transferOp (s : ServerState) (actorEmail : String) (batchID : String)
    (newOwnerEmail newOwnerRole : String) (unitsToTransfer : Int) (t : Int) :
    Except LedgerErr ServerState :=
  if newOwnerEmail = "" ∨ newOwnerRole = "" ∨ unitsToTransfer = 0 then
    .error .missingFields
  else if unitsToTransfer ≤ 0 then
    .error .invalidUnits
  else
    match findMedicine s batchID with
    | none => .error .batchNotFound
    | some med =>
        if med.status ≠ .ACTIVE then .error .notActive
        else
          let userEmail := lower actorEmail
          let avail := availableUnits med.totalUnits med.ownerHistory userEmail
          if avail < unitsToTransfer then
            .error (.insufficientUnits avail unitsToTransfer)
          else if avail = 0 then
            .error (.noUnitsToTransfer med.currentOwner actorEmail)
          else
            let med₁ :=
              if lower med.currentOwner == userEmail then
                { med with remainingUnits := med.remainingUnits - unitsToTransfer }
              else med
            let entry : HistEntry :=
              ⟨newOwnerEmail, (if newOwnerRole == "" then "UNKNOWN" else newOwnerRole),
               .TRANSFERRED, unitsToTransfer, some actorEmail, t⟩
            .ok (updateMedicine s { med₁ with ownerHistory := med₁.ownerHistory ++ [entry] })

/-- `POST /medicine/purchase/:batchID` (`server.js`): validates the units,
finds the batch, requires `ACTIVE`, replays the actor's balance, rejects a
zero balance, rejects an over-draw (the response carries only the
available amount), reduces `remainingUnits` only when the actor is
`currentOwner`, sets `SOLD_OUT` when `remainingUnits` is exactly `0`, and
appends the `PURCHASED` entry crediting `customerEmail || "CUSTOMER"`. -/
def purchaseOp (s : ServerState) (actorEmail : String) (batchID : String)
    (customerEmail : Option String) (unitsPurchased : Int) (t : Int) :
    Except LedgerErr ServerState :=
  if unitsPurchased ≤ 0 then
    .error .invalidUnits
  else
    match findMedicine s batchID with
    | none => .error .batchNotFound
    | some med =>
        if med.status ≠ .ACTIVE then .error .notActive
        else
          let userEmail := lower actorEmail
          let avail := availableUnits med.totalUnits med.ownerHistory userEmail
          if avail = 0 then
            .error (.noUnitsToSell med.currentOwner actorEmail)
          else if avail < unitsPurchased then
            .error (.insufficientStock avail)
          else
            let med₁ :=
              if lower med.currentOwner == userEmail then
                { med with remainingUnits := med.remainingUnits - unitsPurchased }
              else med
            let med₂ :=
              if med₁.remainingUnits = 0 then { med₁ with status := .SOLD_OUT } else med₁
            let entry : HistEntry :=
              ⟨jsOr customerEmail "CUSTOMER", "CUSTOMER", .PURCHASED, unitsPurchased,
               some actorEmail, t⟩
            .ok (updateMedicine s { med₂ with ownerHistory := med₂.ownerHistory ++ [entry] })

/-- `POST /medicine/block/:batchID` (`server.js`): sets the status to
`BLOCKED` unconditionally once the batch is found. -/
def blockOp (s : ServerState) (batchID : String) : Except LedgerErr ServerState :=
  match findMedicine s batchID with
  | none => .error .batchNotFound
  | some med => .ok (updateMedicine s { med with status := .BLOCKED })

/-- Source comparison `l.time > medicine.updatedAt` in
`calculateTrustScore` (`ai/fraudDetection.js`): the `Medicine` schema
declares no `updatedAt` path and does not enable mongoose timestamps, so
`medicine.updatedAt` is `undefined`; the JS comparison coerces `undefined`
to `NaN` and is therefore `false` for every scan time. -/
def timeAfterUpdatedAt (_t : Int) : Bool := false

/-- A running `score -= k` step of `calculateTrustScore`, as the amount
subtracted when the deduction's condition holds. -/
def ded (c : Bool) (k : Int) : Int := if c then k else 0

/-- `new Set(logs.map(l => l.deviceId)).size`. -/
def deviceCount (logs : List ScanEntry) : Nat :=
  (logs.map (fun l => l.deviceId)).toFinset.card

/-- `new Set(logs.map(l => l.location)).size`. -/
def locationCount (logs : List ScanEntry) : Nat :=
  (logs.map (fun l => l.location)).toFinset.card

/-- `medicine.expDate && new Date(medicine.expDate) < now`: an empty
string is falsy, and `pd` models `new Date` on a string (`none` for an
invalid date, whose `NaN` comparisons are all false). -/
def expiredB (pd : String → Option Int) (now : Int) (expDate : String) : Bool :=
  if expDate = "" then false
  else
    match pd expDate with
    | none => false
    | some d => decide (d < now)

/-- `calculateTrustScore` (`ai/fraudDetection.js`), taking the batch's
`ScanLog` entries.  The source fetches them with `sort({ time: 1 })`, but
every statistic used (set sizes, entry count, `some`) is order-invariant,
so the list is taken as stored.  The sequential `score -= k` updates from
the starting value `100` are rendered as `100` minus the applicable
deductions, the reasons are accumulated in source order, and the final
score is `Math.max(0, Math.min(100, score))`. -/
def calculateTrustScore (pd : String → Option Int) (now : Int)
    (med : Medicine) (logs : List ScanEntry) : Int × List String :=
  let c1 : Bool := decide (deviceCount logs > 3)
  let c2 : Bool := decide (logs.length > 10)
  let c3 : Bool := decide (locationCount logs > 2)
  let c4 : Bool := decide (med.status ≠ Status.ACTIVE) && logs.any (fun l => timeAfterUpdatedAt l.time)
  let c5 : Bool := expiredB pd now med.expDate
  let score : Int := 100 - ded c1 20 - ded c2 15 - ded c3 15 - ded c4 30 - ded c5 10
  let reasons : List String :=
    (if c1 then ["Multiple devices scanned QR"] else [])
    ++ (if c2 then ["High scan frequency"] else [])
    ++ (if c3 then ["Scans from multiple locations"] else [])
    ++ (if c4 then ["Scans after sold/consumed/expired"] else [])
    ++ (if c5 then ["Medicine expired"] else [])
  (max 0 (min 100 score), reasons)

/-- `computeIntegrityHash` (`ai/fraudDetection.js`): a one-way hash
(modeled as the parameter `hash`) of
`batchID|name|expDate|currentOwner|status`. -/
def computeIntegrityHash (hash : String → String) (m : Medicine) : String :=
  hash (m.batchID ++ "|" ++ m.name ++ "|" ++ m.expDate ++ "|" ++ m.currentOwner ++ "|" ++ m.status.str)

/-- The JSON results of `GET /medicine/verify/:batchID`: the three
`success: false` outcomes and the `success: true` outcome with trust
score, reasons, the (updated) document and its ownership history. -/
inductive VerifyResult where
  | fakeTampered (batchID : String)
  | fakeUnknown (batchID : String)
  | blocked (batchID : String) (details : Medicine)
  | verified (batchID : String) (suspicious : Bool) (trustScore : Int)
      (reasons : List String) (details : Medicine) (ownerHistory : List HistEntry)
deriving DecidableEq

/-- JS `!sig || sig !== expectedSig`: a missing or empty signature, or any
mismatch. -/
def sigInvalid (sig : Option String) (expected : String) : Bool :=
  match sig with
  | none => true
  | some v => v == "" || v != expected

/-- `GET /medicine/verify/:batchID` (`server.js`).  `sign` models
`signBatch` (HMAC of the batch id under the process secret), `hash` the
sha256 of `computeIntegrityHash`, `pd` the date parse used for expiry, and
`t` the clock used for the new documents.  In the success branch the trust
score is computed from the batch's already stored `ScanLog` entries, the
new scan is then logged with the derived anomaly flag, and the document's
`trustScore` and `integrityHash` are assigned before responding.  The
source interleaves the writes to the three distinct collections
(`ScanLog.create`, `med.save()`, `AuditLog.create`) in that order; the
resulting state is the same. -/
def verifyOp (sign hash : String → String) (pd : String → Option Int) (now : Int)
    (s : ServerState) (batchID : String) (sig : Option String)
    (location deviceId user : Option String) (t : Int) : VerifyResult × ServerState :=
  let loc := jsOr location "UNKNOWN"
  let dev := jsOr deviceId "UNKNOWN"
  let usr := jsOr user "UNKNOWN"
  let expectedSig := sign batchID
  if sigInvalid sig expectedSig then
    (VerifyResult.fakeTampered batchID,
      { s with
          scanLogs := s.scanLogs ++ [⟨batchID, "❌ FAKE (QR tampered)", "UNKNOWN", t, loc, dev, usr, true⟩],
          audits := s.audits ++ [⟨"QR_VERIFICATION_FAIL", usr, batchID⟩] })
  else
    match findMedicine s batchID with
    | none =>
        (VerifyResult.fakeUnknown batchID,
          { s with
              scanLogs := s.scanLogs ++ [⟨batchID, "❌ FAKE (Not Registered)", "UNKNOWN", t, loc, dev, usr, true⟩],
              audits := s.audits ++ [⟨"QR_VERIFICATION_FAIL", usr, batchID⟩] })
    | some med =>
        if med.status = Status.BLOCKED then
          (VerifyResult.blocked batchID med,
            { s with
                scanLogs := s.scanLogs ++ [⟨batchID, "❌ BLOCKED", "UNKNOWN", t, loc, dev, usr, true⟩],
                audits := s.audits ++ [⟨"QR_VERIFICATION_FAIL", usr, batchID⟩] })
        else
          let batchLogs := s.scanLogs.filter (fun l => l.batchID == batchID)
          let sr := calculateTrustScore pd now med batchLogs
          let anomaly : Bool := decide (sr.1 < 70)
          let newEntry : ScanEntry :=
            ⟨batchID, (if anomaly then "⚠️ SUSPICIOUS" else "✅ GENUINE"), usr, t, loc, dev, usr, anomaly⟩
          let med' := { med with
            trustScore := some sr.1,
            integrityHash := some (computeIntegrityHash hash med) }
          (VerifyResult.verified batchID anomaly sr.1 sr.2 med' med.ownerHistory,
            { (updateMedicine s med') with
                scanLogs := s.scanLogs ++ [newEntry],
                audits := s.audits ++ [⟨"QR_VERIFICATION", usr, batchID⟩] })

/-- A request to one of the five state-touching operations of the core. -/
inductive Act where
  | register (actorEmail actorRole batchID name manufacturer mfgDate expDate : String)
      (totalUnits : Int) (t : Int)
  | transfer (actorEmail batchID newOwnerEmail newOwnerRole : String) (units : Int) (t : Int)
  | purchase (actorEmail batchID : String) (customerEmail : Option String) (units : Int) (t : Int)
  | block (batchID : String)
  | verify (batchID : String) (sig : Option String) (location deviceId user : Option String)
      (now t : Int)

/-- The external identity provider supplies a principal with an e-mail
(spec terms); requests of the ledger operations therefore carry a
non-empty actor e-mail. -/
def Act.wf : Act → Prop
  | .register a _ _ _ _ _ _ _ _ => a ≠ ""
  | .transfer a _ _ _ _ _ => a ≠ ""
  | .purchase a _ _ _ _ => a ≠ ""
  | .block _ => True
  | .verify _ _ _ _ _ _ _ => True

instance : DecidablePred Act.wf := by
  intro a
  cases a <;> simp only [Act.wf] <;> infer_instance

/-- Route dispatch: an accepted request produces the committed next
state, a rejected one commits nothing. -/
def applyAct (sign hash : String → String) (pd : String → Option Int)
    (s : ServerState) : Act → Option ServerState
  | .register a r b n m md ed u t => (registerOp s a r b n m md ed u t).toOption
  | .transfer a b ne nr u t => (transferOp s a b ne nr u t).toOption
  | .purchase a b c u t => (purchaseOp s a b c u t).toOption
  | .block b => (blockOp s b).toOption
  | .verify b sig l d u now t => some (verifyOp sign hash pd now s b sig l d u t).2

/-- Runs a sequence of requests, stopping at the first rejected one. -/
def runActs (sign hash : String → String) (pd : String → Option Int) :
    ServerState → List Act → Option ServerState
  | s, [] => some s
  | s, a :: rest =>
      match applyAct sign hash pd s a with
      | some s' => runActs sign hash pd s' rest
      | none => none

/-- The collections start empty. -/
def initialState : ServerState := ⟨[], [], []⟩

/-- A state is reachable when some sequence of accepted requests (by
principals with an e-mail) leads to it from the empty store. -/
def Reachable (sign hash : String → String) (pd : String → Option Int)
    (s : ServerState) : Prop :=
  ∃ acts : List Act, (∀ a ∈ acts, a.wf) ∧ runActs sign hash pd initialState acts = some s

/-- The parties (lower-cased) mentioned by one history entry: the
recipient and, when present, the debited source. -/
def entryKeys (h : HistEntry) : List String :=
  lower h.owner :: (match h.fromParty with | some f => [lower f] | none => [])

/-- All parties mentioned by a history. -/
def histKeys : List HistEntry → List String
  | [] => []
  | h :: t => entryKeys h ++ histKeys t

/-- Sum of the derived balances of a list of parties. -/
def sumAvail (total : Int) (hist : List HistEntry) (ps : List String) : Int :=
  (ps.map (fun u => availableUnits total hist u)).sum

/-- Total units recorded in `PURCHASED` events of a history. -/
def soldTotal : List HistEntry → Int
  | [] => 0
  | h :: t => (if h.action = .PURCHASED then h.unitsPurchased else 0) + soldTotal t

theorem histReceived_append (total : Int) (u : String) (l₁ l₂ : List HistEntry) :
    histReceived total u (l₁ ++ l₂) = histReceived total u l₁ + histReceived total u l₂ := by
  induction l₁ with
  | nil => simp [histReceived]
  | cons h t ih =>
      simp only [List.cons_append, histReceived, List.append_eq, ih]
      ring

theorem histTransferredOut_append (u : String) (l₁ l₂ : List HistEntry) :
    histTransferredOut u (l₁ ++ l₂) = histTransferredOut u l₁ + histTransferredOut u l₂ := by
  induction l₁ with
  | nil => simp [histTransferredOut]
  | cons h t ih =>
      simp only [List.cons_append, histTransferredOut, List.append_eq, ih]
      ring

theorem histSold_append (u : String) (l₁ l₂ : List HistEntry) :
    histSold u (l₁ ++ l₂) = histSold u l₁ + histSold u l₂ := by
  induction l₁ with
  | nil => simp [histSold]
  | cons h t ih =>
      simp only [List.cons_append, histSold, List.append_eq, ih]
      ring

theorem soldTotal_append (l₁ l₂ : List HistEntry) :
    soldTotal (l₁ ++ l₂) = soldTotal l₁ + soldTotal l₂ := by
  induction l₁ with
  | nil => simp [soldTotal]
  | cons h t ih =>
      simp only [List.cons_append, soldTotal, List.append_eq, ih]
      ring

theorem histKeys_append (l₁ l₂ : List HistEntry) :
    histKeys (l₁ ++ l₂) = histKeys l₁ ++ histKeys l₂ := by
  induction l₁ with
  | nil => simp [histKeys]
  | cons h t ih => simp [histKeys, ih]

theorem availableUnits_append (total : Int) (u : String) (l₁ l₂ : List HistEntry) :
    availableUnits total (l₁ ++ l₂) u = availableUnits total l₁ u + availableUnits total l₂ u := by
  simp only [availableUnits, histReceived_append, histTransferredOut_append, histSold_append]
  ring

theorem availableUnits_nil (total : Int) (u : String) :
    availableUnits total [] u = 0 := by
  simp [availableUnits, histReceived, histTransferredOut, histSold]

/-- The balance contributed by a single entry. -/
theorem availableUnits_singleton (total : Int) (u : String) (e : HistEntry) :
    availableUnits total [e] u =
      (if e.action = .REGISTERED ∧ ownerMatches e u then total else 0)
      + (if e.action = .TRANSFERRED ∧ ownerMatches e u then e.unitsPurchased else 0)
      - (if e.action = .TRANSFERRED ∧ fromMatches e u then e.unitsPurchased else 0)
      - (if e.action = .PURCHASED ∧ fromMatches e u then e.unitsPurchased else 0) := by
  simp [availableUnits, histReceived, histTransferredOut, histSold]

theorem sum_map_add (f g : String → Int) (ps : List String) :
    (ps.map (fun u => f u + g u)).sum = (ps.map f).sum + (ps.map g).sum := by
  induction ps with
  | nil => simp
  | cons a t ih => simp [ih]; ring

theorem sum_map_sub (f g : String → Int) (ps : List String) :
    (ps.map (fun u => f u - g u)).sum = (ps.map f).sum - (ps.map g).sum := by
  induction ps with
  | nil => simp
  | cons a t ih => simp [ih]; ring

theorem sum_map_ite_eq (k : String) (x : Int) (ps : List String) (hnd : ps.Nodup) :
    (ps.map (fun u => if k = u then x else 0)).sum = if k ∈ ps then x else 0 := by
  induction ps with
  | nil => simp
  | cons a t ih =>
      rcases List.nodup_cons.mp hnd with ⟨hna, hnt⟩
      by_cases hk : k = a
      · subst hk
        simp only [List.map_cons, List.sum_cons, if_pos rfl, List.mem_cons, true_or, if_pos]
        rw [ih hnt, if_neg hna]
        ring
      · simp only [List.map_cons, List.sum_cons, if_neg hk, ih hnt, List.mem_cons]
        have : (k = a ∨ k ∈ t) ↔ k ∈ t := by
          constructor
          · rintro (h | h)
            · exact absurd h hk
            · exact h
          · exact Or.inr
        rw [if_congr this rfl rfl]
        ring

theorem sumAvail_append (total : Int) (l₁ l₂ : List HistEntry) (ps : List String) :
    sumAvail total (l₁ ++ l₂) ps = sumAvail total l₁ ps + sumAvail total l₂ ps := by
  simp only [sumAvail, availableUnits_append]
  rw [sum_map_add]

theorem findMedicine_mem {s : ServerState} {b : String} {med : Medicine}
    (h : findMedicine s b = some med) : med ∈ s.medicines :=
  List.mem_of_find?_eq_some h

theorem findMedicine_batchID {s : ServerState} {b : String} {med : Medicine}
    (h : findMedicine s b = some med) : med.batchID = b := by
  have := List.find?_some h
  simpa [beq_iff_eq] using this

theorem mem_updateMedicine {s : ServerState} {med' m : Medicine}
    (h : m ∈ (updateMedicine s med').medicines) : m = med' ∨ m ∈ s.medicines := by
  simp only [updateMedicine, List.mem_map] at h
  obtain ⟨x, hx, hm⟩ := h
  split at hm
  · exact Or.inl hm.symm
  · exact Or.inr (hm ▸ hx)

theorem find?_map_update (ms : List Medicine) (b : String) (med med' : Medicine)
    (h : ms.find? (fun m => m.batchID == b) = some med) (hb : med'.batchID = b) :
    (ms.map (fun m => if m.batchID == med'.batchID then med' else m)).find?
      (fun m => m.batchID == b) = some med' := by
  induction ms with
  | nil => simp at h
  | cons x t ih =>
      by_cases hx : x.batchID = b
      · have hcond : (x.batchID == med'.batchID) = true := by simp [beq_iff_eq, hx, hb]
        simp only [List.map_cons, hcond, if_true]
        rw [List.find?_cons_of_pos]
        simp [beq_iff_eq, hb]
      · have hcond : (x.batchID == med'.batchID) = false := by
          simp only [beq_eq_false_iff_ne, ne_eq, hb]
          exact hx
        rw [List.find?_cons_of_neg _ (by simp [beq_iff_eq]; exact hx)] at h
        simp only [List.map_cons, hcond, Bool.false_eq_true, if_false]
        rw [List.find?_cons_of_neg _ (by simp [beq_iff_eq]; exact hx)]
        exact ih h

theorem findMedicine_update {s : ServerState} {b : String} {med med' : Medicine}
    (h : findMedicine s b = some med) (hb : med'.batchID = b) :
    findMedicine (updateMedicine s med') b = some med' := by
  simp only [findMedicine, updateMedicine] at *
  exact find?_map_update s.medicines b med med' h hb

/-- Shape of a committed history: one initial `REGISTERED` entry naming
the (never reassigned) `currentOwner`, followed by `TRANSFERRED` /
`PURCHASED` entries, each moving a positive number of units out of a
named, non-empty source party. -/
def shapeOK (m : Medicine) : Prop :=
  ∃ e0 rest, m.ownerHistory = e0 :: rest ∧ e0.action = .REGISTERED ∧
    e0.owner = m.currentOwner ∧ e0.fromParty = none ∧ e0.unitsPurchased = 0 ∧
    ∀ h ∈ rest, h.action ≠ .REGISTERED ∧ 0 < h.unitsPurchased ∧
      ∃ f, h.fromParty = some f ∧ f ≠ ""

/-- Invariant maintained for every stored batch by every accepted
operation. -/
structure MedInv (m : Medicine) : Prop where
  shape : shapeOK m
  totalPos : 0 < m.totalUnits
  prefNonneg : ∀ (n : Nat) (u : String),
    0 ≤ availableUnits m.totalUnits (m.ownerHistory.take n) u
  remEq : m.remainingUnits =
    m.totalUnits - (histTransferredOut (lower m.currentOwner) m.ownerHistory
                    + histSold (lower m.currentOwner) m.ownerHistory)

/-- Every stored batch satisfies the invariant. -/
def StateInv (s : ServerState) : Prop := ∀ m ∈ s.medicines, MedInv m

theorem MedInv.nonneg {m : Medicine} (inv : MedInv m) (u : String) :
    0 ≤ availableUnits m.totalUnits m.ownerHistory u := by
  have h := inv.prefNonneg m.ownerHistory.length u
  rwa [List.take_length] at h

theorem fromMatches_some {e : HistEntry} {f : String} (h : e.fromParty = some f)
    (hf : f ≠ "") (u : String) : fromMatches e u = (lower f == u) := by
  simp [fromMatches, h, hf]

/-- Appending one accepted `TRANSFERRED` / `PURCHASED` entry, with its
balance guard, preserves the batch invariant. -/
theorem MedInv.appendEntry {m : Medicine} (inv : MedInv m) {e : HistEntry}
    {actor : String} (hactor : actor ≠ "")
    (hact : e.action = .TRANSFERRED ∨ e.action = .PURCHASED)
    (hfrom : e.fromParty = some actor)
    (hunits : 0 < e.unitsPurchased)
    (hguard : e.unitsPurchased ≤ availableUnits m.totalUnits m.ownerHistory (lower actor))
    {m' : Medicine}
    (hh : m'.ownerHistory = m.ownerHistory ++ [e])
    (htot : m'.totalUnits = m.totalUnits)
    (hown : m'.currentOwner = m.currentOwner)
    (hrem : m'.remainingUnits = m.remainingUnits -
       (if lower m.currentOwner = lower actor then e.unitsPurchased else 0)) :
    MedInv m' := by
  have eNotReg : e.action ≠ .REGISTERED := by
    rcases hact with h | h <;> simp [h]
  have hfm : ∀ u, fromMatches e u = (lower actor == u) := fromMatches_some hfrom hactor
  have hsingle : ∀ u, availableUnits m.totalUnits [e] u =
      (if e.action = .TRANSFERRED ∧ ownerMatches e u then e.unitsPurchased else 0)
      - (if fromMatches e u then e.unitsPurchased else 0) := by
    intro u
    rw [availableUnits_singleton]
    rcases hact with h | h <;> simp [h, hfm]
  refine ⟨?_, htot ▸ inv.totalPos, ?_, ?_⟩
  · obtain ⟨e0, rest, hsplit, h0a, h0o, h0f, h0u, hrest⟩ := inv.shape
    refine ⟨e0, rest ++ [e], by rw [hh, hsplit, List.cons_append], h0a, hown ▸ h0o, h0f, h0u, ?_⟩
    intro h hmem
    rcases List.mem_append.mp hmem with hm | hm
    · exact hrest h hm
    · have he : h = e := List.mem_singleton.mp hm
      subst he
      exact ⟨eNotReg, hunits, actor, hfrom, hactor⟩
  · intro n u
    rw [hh, htot, List.take_append_eq_append_take]
    by_cases hn : n ≤ m.ownerHistory.length
    · have : n - m.ownerHistory.length = 0 := Nat.sub_eq_zero_of_le hn
      rw [this]
      simpa [availableUnits_append, availableUnits_nil] using inv.prefNonneg n u
    · push_neg at hn
      have h1 : m.ownerHistory.take n = m.ownerHistory :=
        List.take_of_length_le (Nat.le_of_lt hn)
      have h2 : ([e] : List HistEntry).take (n - m.ownerHistory.length) = [e] := by
        apply List.take_of_length_le
        simp only [List.length_singleton]
        omega
      rw [h1, h2, availableUnits_append]
      have hfull := inv.nonneg u
      rw [hsingle u]
      by_cases hf : fromMatches e u
      · have hu : u = lower actor := by
          have hb := (hfm u) ▸ hf
          exact (beq_iff_eq.mp hb).symm
        subst hu
        by_cases ho : e.action = .TRANSFERRED ∧ ownerMatches e (lower actor)
        · rw [if_pos ho, if_pos hf]
          omega
        · rw [if_neg ho, if_pos hf]
          omega
      · rw [if_neg hf]
        by_cases ho : e.action = .TRANSFERRED ∧ ownerMatches e u
        · rw [if_pos ho]
          omega
        · rw [if_neg ho]
          omega
  · rw [hrem, hown, hh, htot, inv.remEq, histTransferredOut_append, histSold_append]
    have hout1 : histTransferredOut (lower m.currentOwner) [e] =
        (if e.action = .TRANSFERRED ∧ fromMatches e (lower m.currentOwner)
         then e.unitsPurchased else 0) := by
      simp [histTransferredOut]
    have hsold1 : histSold (lower m.currentOwner) [e] =
        (if e.action = .PURCHASED ∧ fromMatches e (lower m.currentOwner)
         then e.unitsPurchased else 0) := by
      simp [histSold]
    rw [hout1, hsold1, hfm]
    by_cases hc : lower m.currentOwner = lower actor
    · have hb : (lower actor == lower m.currentOwner) = true := by
        simp [beq_iff_eq, hc.symm]
      rw [if_pos hc, hb]
      rcases hact with h | h <;> simp [h] <;> ring
    · have hb : (lower actor == lower m.currentOwner) = false := by
        simp only [beq_eq_false_iff_ne, ne_eq]
        exact fun hcc => hc hcc.symm
      rw [if_neg hc, hb]
      simp
      try ring

/-- A freshly registered batch satisfies the invariant. -/
theorem MedInv.registered (actorEmail actorRole batchID name manufacturer mfgDate expDate : String)
    (units t : Int) (hu : 0 < units) :
    MedInv { batchID := batchID, name := name, manufacturer := manufacturer,
             mfgDate := mfgDate, expDate := expDate,
             totalUnits := units, remainingUnits := units,
             currentOwner := actorEmail, status := .ACTIVE,
             ownerHistory := [⟨actorEmail, actorRole, .REGISTERED, 0, none, t⟩],
             trustScore := none, integrityHash := none, createdAt := t } := by
  refine ⟨⟨⟨actorEmail, actorRole, .REGISTERED, 0, none, t⟩, [], rfl, rfl, rfl, rfl, rfl, ?_⟩,
          hu, ?_, ?_⟩
  · intro h hmem
    simp at hmem
  · intro n u
    match n with
    | 0 => simp [availableUnits_nil]
    | Nat.succ k =>
        have htake : ([⟨actorEmail, actorRole, .REGISTERED, 0, none, t⟩] :
            List HistEntry).take (k + 1) = [⟨actorEmail, actorRole, .REGISTERED, 0, none, t⟩] := by
          apply List.take_of_length_le
          simp
        rw [htake, availableUnits_singleton]
        by_cases ho : ownerMatches ⟨actorEmail, actorRole, .REGISTERED, 0, none, t⟩ u <;>
          (simp [ho, fromMatches]; try omega)
  · simp [histTransferredOut, histSold, fromMatches]

/-- Changing only `status`, `trustScore` or `integrityHash` preserves the
invariant (used by block and verify). -/
theorem MedInv.updateAux {m : Medicine} (inv : MedInv m) (st : Status)
    (ts : Option Int) (ih : Option String) :
    MedInv { m with status := st, trustScore := ts, integrityHash := ih } := by
  refine ⟨?_, inv.totalPos, inv.prefNonneg, inv.remEq⟩
  obtain ⟨e0, rest, hsplit, h0a, h0o, h0f, h0u, hrest⟩ := inv.shape
  exact ⟨e0, rest, hsplit, h0a, h0o, h0f, h0u, hrest⟩

theorem stateInv_register {s s' : ServerState} {a r b n m md ed : String} {u t : Int}
    (inv : StateInv s) (h : registerOp s a r b n m md ed u t = .ok s') : StateInv s' := by
  unfold registerOp at h
  split at h
  · exact absurd h (by simp)
  · split at h
    · exact absurd h (by simp)
    · split at h
      · exact absurd h (by simp)
      · rename_i hmiss hle _ _
        simp only [Except.ok.injEq] at h
        subst h
        intro med hmem
        rcases List.mem_append.mp hmem with hm | hm
        · exact inv med hm
        · have hmed := List.mem_singleton.mp hm
          subst hmed
          exact MedInv.registered a r b n m md ed u t (by omega)

/-- Characterization of an accepted transfer: the guards that held and
the committed state. -/
theorem transferOp_ok_shape {s s' : ServerState} {a b ne nr : String} {u t : Int}
    (h : transferOp s a b ne nr u t = .ok s') :
    ∃ med, findMedicine s b = some med ∧ med.status = .ACTIVE ∧ 0 < u ∧
      u ≤ availableUnits med.totalUnits med.ownerHistory (lower a) ∧
      availableUnits med.totalUnits med.ownerHistory (lower a) ≠ 0 ∧
      s' = updateMedicine s
        { med with
            remainingUnits := med.remainingUnits -
              (if lower med.currentOwner == lower a then u else 0),
            ownerHistory := med.ownerHistory ++
              [⟨ne, (if nr == "" then "UNKNOWN" else nr), .TRANSFERRED, u, some a, t⟩] } := by
  by_cases h1 : ne = "" ∨ nr = "" ∨ u = 0
  · simp [transferOp, h1] at h
  · by_cases h2 : u ≤ 0
    · simp [transferOp, h1, h2] at h
    · cases hfind : findMedicine s b with
      | none => simp [transferOp, h1, h2, hfind] at h
      | some med =>
          by_cases h3 : med.status ≠ Status.ACTIVE
          · simp [transferOp, h1, h2, hfind, h3] at h
          · by_cases h4 : availableUnits med.totalUnits med.ownerHistory (lower a) < u
            · simp [transferOp, h1, h2, hfind, h3, h4] at h
            · by_cases h5 : availableUnits med.totalUnits med.ownerHistory (lower a) = 0
              · exfalso
                omega
              · have hred : transferOp s a b ne nr u t = .ok (updateMedicine s
                    { med with
                        remainingUnits := med.remainingUnits -
                          (if lower med.currentOwner == lower a then u else 0),
                        ownerHistory := med.ownerHistory ++
                          [⟨ne, (if nr == "" then "UNKNOWN" else nr), .TRANSFERRED, u, some a, t⟩] }) := by
                  by_cases hc : lower med.currentOwner == lower a <;>
                    simp [transferOp, h1, h2, hfind, h3, h4, h5, hc]
                rw [hred] at h
                simp only [Except.ok.injEq] at h
                exact ⟨med, rfl, by simpa using h3, by omega, by omega, h5, h.symm⟩

/-- Characterization of an accepted sale: the guards that held and the
committed state, including the `SOLD_OUT` status rule. -/
theorem purchaseOp_ok_shape {s s' : ServerState} {a b : String} {c : Option String} {u t : Int}
    (h : purchaseOp s a b c u t = .ok s') :
    ∃ med, findMedicine s b = some med ∧ med.status = .ACTIVE ∧ 0 < u ∧
      u ≤ availableUnits med.totalUnits med.ownerHistory (lower a) ∧
      availableUnits med.totalUnits med.ownerHistory (lower a) ≠ 0 ∧
      s' = updateMedicine s
        { med with
            remainingUnits := med.remainingUnits -
              (if lower med.currentOwner == lower a then u else 0),
            status := (if med.remainingUnits -
                (if lower med.currentOwner == lower a then u else 0) = 0
              then Status.SOLD_OUT else med.status),
            ownerHistory := med.ownerHistory ++
              [⟨jsOr c "CUSTOMER", "CUSTOMER", .PURCHASED, u, some a, t⟩] } := by
  by_cases h2 : u ≤ 0
  · simp [purchaseOp, h2] at h
  · cases hfind : findMedicine s b with
    | none => simp [purchaseOp, h2, hfind] at h
    | some med =>
        by_cases h3 : med.status ≠ Status.ACTIVE
        · simp [purchaseOp, h2, hfind, h3] at h
        · by_cases h5 : availableUnits med.totalUnits med.ownerHistory (lower a) = 0
          · simp [purchaseOp, h2, hfind, h3, h5] at h
          · by_cases h4 : availableUnits med.totalUnits med.ownerHistory (lower a) < u
            · simp [purchaseOp, h2, hfind, h3, h5, h4] at h
            · have hred : purchaseOp s a b c u t = .ok (updateMedicine s
                  { med with
                      remainingUnits := med.remainingUnits -
                        (if lower med.currentOwner == lower a then u else 0),
                      status := (if med.remainingUnits -
                          (if lower med.currentOwner == lower a then u else 0) = 0
                        then Status.SOLD_OUT else med.status),
                      ownerHistory := med.ownerHistory ++
                        [⟨jsOr c "CUSTOMER", "CUSTOMER", .PURCHASED, u, some a, t⟩] }) := by
                by_cases hc : lower med.currentOwner == lower a <;>
                  by_cases hr : med.remainingUnits -
                    (if lower med.currentOwner == lower a then u else 0) = 0 <;>
                  simp [purchaseOp, h2, hfind, h3, h5, h4, hc] <;>
                  simp [hc] at hr <;>
                  simp [hr]
              rw [hred] at h
              simp only [Except.ok.injEq] at h
              exact ⟨med, rfl, by simpa using h3, by omega, by omega, h5, h.symm⟩

theorem stateInv_transfer {s s' : ServerState} {a b ne nr : String} {u t : Int}
    (ha : a ≠ "") (inv : StateInv s) (h : transferOp s a b ne nr u t = .ok s') : StateInv s' := by
  obtain ⟨med, hfind, hstat, hu, hle, hnz, hs⟩ := transferOp_ok_shape h
  subst hs
  intro med2 hmem
  rcases mem_updateMedicine hmem with hm | hm
  · subst hm
    have hinv := inv med (findMedicine_mem hfind)
    refine hinv.appendEntry ha (Or.inl rfl) rfl (by simpa using hu) (by simpa using hle)
      rfl rfl rfl ?_
    by_cases hc : lower med.currentOwner = lower a
    · have hb : (lower med.currentOwner == lower a) = true := by simp [beq_iff_eq, hc]
      simp [hb, hc]
    · have hb : (lower med.currentOwner == lower a) = false := by
        simp only [beq_eq_false_iff_ne, ne_eq]
        exact hc
      simp [hb, hc]
  · exact inv med2 hm

theorem stateInv_purchase {s s' : ServerState} {a b : String} {c : Option String} {u t : Int}
    (ha : a ≠ "") (inv : StateInv s) (h : purchaseOp s a b c u t = .ok s') : StateInv s' := by
  obtain ⟨med, hfind, hstat, hu, hle, hnz, hs⟩ := purchaseOp_ok_shape h
  subst hs
  intro med2 hmem
  rcases mem_updateMedicine hmem with hm | hm
  · subst hm
    have hinv := inv med (findMedicine_mem hfind)
    refine hinv.appendEntry ha (Or.inr rfl) rfl (by simpa using hu) (by simpa using hle)
      rfl rfl rfl ?_
    by_cases hc : lower med.currentOwner = lower a
    · have hb : (lower med.currentOwner == lower a) = true := by simp [beq_iff_eq, hc]
      simp [hb, hc]
    · have hb : (lower med.currentOwner == lower a) = false := by
        simp only [beq_eq_false_iff_ne, ne_eq]
        exact hc
      simp [hb, hc]
  · exact inv med2 hm

theorem stateInv_block {s s' : ServerState} {b : String}
    (inv : StateInv s) (h : blockOp s b = .ok s') : StateInv s' := by
  unfold blockOp at h
  split at h
  · exact absurd h (by simp)
  · rename_i med hfind
    simp only [Except.ok.injEq] at h
    subst h
    intro med2 hmem
    rcases mem_updateMedicine hmem with hm | hm
    · subst hm
      exact (inv med (findMedicine_mem hfind)).updateAux .BLOCKED med.trustScore med.integrityHash
    · exact inv med2 hm

theorem verifyOp_medicines (sign hash : String → String) (pd : String → Option Int)
    (now : Int) (s : ServerState) (batchID : String) (sig : Option String)
    (location deviceId user : Option String) (t : Int) :
    ∀ m ∈ (verifyOp sign hash pd now s batchID sig location deviceId user t).2.medicines,
      m ∈ s.medicines ∨
      ∃ med, findMedicine s batchID = some med ∧
        m = { med with
          trustScore := some (calculateTrustScore pd now med
            (s.scanLogs.filter (fun l => l.batchID == batchID))).1,
          integrityHash := some (computeIntegrityHash hash med) } := by
  intro m hm
  by_cases hsig : sigInvalid sig (sign batchID) = true
  · simp only [verifyOp, hsig, if_true] at hm
    exact Or.inl hm
  · cases hfind : findMedicine s batchID with
    | none =>
        simp only [verifyOp, hsig, Bool.false_eq_true, if_false, hfind] at hm
        exact Or.inl hm
    | some med =>
        by_cases hblk : med.status = Status.BLOCKED
        · simp only [verifyOp, hsig, Bool.false_eq_true, if_false, hfind, hblk, if_true] at hm
          exact Or.inl hm
        · simp only [verifyOp, hsig, Bool.false_eq_true, if_false, hfind, hblk] at hm
          rcases mem_updateMedicine hm with h1 | h1
          · exact Or.inr ⟨med, rfl, h1⟩
          · exact Or.inl h1

theorem stateInv_applyAct (sign hash : String → String) (pd : String → Option Int)
    {s s' : ServerState} {a : Act}
    (inv : StateInv s) (hwf : a.wf) (h : applyAct sign hash pd s a = some s') : StateInv s' := by
  cases a with
  | register a r b n m md ed u t =>
      simp only [applyAct, Except.toOption] at h
      split at h
      · rename_i x hx
        simp only [Option.some.injEq] at h
        exact stateInv_register inv (h ▸ hx)
      · exact absurd h (by simp)
  | transfer a b ne nr u t =>
      simp only [applyAct, Except.toOption] at h
      split at h
      · rename_i x hx
        simp only [Option.some.injEq] at h
        exact stateInv_transfer hwf inv (h ▸ hx)
      · exact absurd h (by simp)
  | purchase a b c u t =>
      simp only [applyAct, Except.toOption] at h
      split at h
      · rename_i x hx
        simp only [Option.some.injEq] at h
        exact stateInv_purchase hwf inv (h ▸ hx)
      · exact absurd h (by simp)
  | block b =>
      simp only [applyAct, Except.toOption] at h
      split at h
      · rename_i x hx
        simp only [Option.some.injEq] at h
        exact stateInv_block inv (h ▸ hx)
      · exact absurd h (by simp)
  | verify b sig l d u now t =>
      simp only [applyAct, Option.some.injEq] at h
      subst h
      intro m hm
      rcases verifyOp_medicines sign hash pd now s b sig l d u t m hm with h1 | ⟨med, hfind, h1⟩
      · exact inv m h1
      · subst h1
        exact (inv med (findMedicine_mem hfind)).updateAux med.status _ _

theorem stateInv_runActs (sign hash : String → String) (pd : String → Option Int) :
    ∀ (acts : List Act) (s s' : ServerState), StateInv s → (∀ a ∈ acts, a.wf) →
      runActs sign hash pd s acts = some s' → StateInv s' := by
  intro acts
  induction acts with
  | nil =>
      intro s s' inv _ h
      simp only [runActs, Option.some.injEq] at h
      exact h ▸ inv
  | cons a rest ih =>
      intro s s' inv hwf h
      simp only [runActs] at h
      split at h
      · rename_i s₁ h₁
        exact ih s₁ s' (stateInv_applyAct sign hash pd inv (hwf a (by simp)) h₁)
          (fun x hx => hwf x (by simp [hx])) h
      · exact absurd h (by simp)

/-- Every reachable state satisfies the per-batch invariant. -/
theorem reachable_stateInv {sign hash : String → String} {pd : String → Option Int}
    {s : ServerState} (h : Reachable sign hash pd s) : StateInv s := by
  obtain ⟨acts, hwf, hrun⟩ := h
  exact stateInv_runActs sign hash pd acts initialState s (by intro m hm; simp [initialState] at hm)
    hwf hrun

/-- A single accepted transfer entry nets to zero over a covering,
duplicate-free party list: the recipient's credit cancels the source's
debit. -/
theorem sumAvail_single_transferred (total : Int) (e : HistEntry) {f : String}
    (hA : e.action = .TRANSFERRED) (hf : e.fromParty = some f) (hfne : f ≠ "")
    (ps : List String) (hnd : ps.Nodup)
    (hko : lower e.owner ∈ ps) (hkf : lower f ∈ ps) :
    sumAvail total [e] ps = 0 := by
  unfold sumAvail
  have hav : ∀ u, availableUnits total [e] u =
      (if lower e.owner = u then e.unitsPurchased else 0)
      - (if lower f = u then e.unitsPurchased else 0) := by
    intro u
    rw [availableUnits_singleton, fromMatches_some hf hfne]
    simp [hA, ownerMatches, beq_iff_eq]
  calc (ps.map fun u => availableUnits total [e] u).sum
      = (ps.map fun u => (if lower e.owner = u then e.unitsPurchased else 0)
          - (if lower f = u then e.unitsPurchased else 0)).sum := by
        simp only [hav]
    _ = (if lower e.owner ∈ ps then e.unitsPurchased else 0)
          - (if lower f ∈ ps then e.unitsPurchased else 0) := by
        rw [sum_map_sub, sum_map_ite_eq _ _ _ hnd, sum_map_ite_eq _ _ _ hnd]
    _ = 0 := by rw [if_pos hko, if_pos hkf]; ring

/-- A single accepted sale entry nets to minus its units: the external
customer is credited by no event. -/
theorem sumAvail_single_purchased (total : Int) (e : HistEntry) {f : String}
    (hA : e.action = .PURCHASED) (hf : e.fromParty = some f) (hfne : f ≠ "")
    (ps : List String) (hnd : ps.Nodup) (hkf : lower f ∈ ps) :
    sumAvail total [e] ps = -e.unitsPurchased := by
  unfold sumAvail
  have hav : ∀ u, availableUnits total [e] u =
      (0:Int) - (if lower f = u then e.unitsPurchased else 0) := by
    intro u
    rw [availableUnits_singleton, fromMatches_some hf hfne]
    simp [hA, beq_iff_eq]
  calc (ps.map fun u => availableUnits total [e] u).sum
      = (ps.map fun u => (0:Int) - (if lower f = u then e.unitsPurchased else 0)).sum := by
        simp only [hav]
    _ = (ps.map fun _ => (0:Int)).sum - (if lower f ∈ ps then e.unitsPurchased else 0) := by
        rw [sum_map_sub, sum_map_ite_eq _ _ _ hnd]
    _ = -e.unitsPurchased := by
        rw [if_pos hkf]
        simp

/-- Conservation over a well-shaped history: the balances of any
duplicate-free list of parties covering every mentioned party sum to
`totalUnits` minus the units recorded in `PURCHASED` events. -/
theorem conservation_of_shape (total : Int) (e0 : HistEntry) (rest : List HistEntry)
    (h0 : e0.action = .REGISTERED)
    (hrest : ∀ h ∈ rest, h.action ≠ .REGISTERED ∧ ∃ f, h.fromParty = some f ∧ f ≠ "")
    (ps : List String) (hnd : ps.Nodup)
    (hcov : ∀ k ∈ histKeys (e0 :: rest), k ∈ ps) :
    sumAvail total (e0 :: rest) ps = total - soldTotal (e0 :: rest) := by
  induction rest using List.reverseRecOn with
  | nil =>
      have hko : lower e0.owner ∈ ps := by
        apply hcov
        simp [histKeys, entryKeys]
      have hav : ∀ u, availableUnits total [e0] u =
          (if lower e0.owner = u then total else 0) := by
        intro u
        rw [availableUnits_singleton]
        simp [h0, ownerMatches, beq_iff_eq]
      have hsum : sumAvail total [e0] ps = total := by
        unfold sumAvail
        calc (ps.map fun u => availableUnits total [e0] u).sum
            = (ps.map fun u => (if lower e0.owner = u then total else 0)).sum := by
              simp only [hav]
          _ = total := by rw [sum_map_ite_eq _ _ _ hnd, if_pos hko]
      rw [hsum]
      simp [soldTotal, h0]
  | append_singleton r e ih =>
      have hspl : e0 :: (r ++ [e]) = (e0 :: r) ++ [e] := by simp
      have hkeys : histKeys (e0 :: (r ++ [e])) = histKeys (e0 :: r) ++ histKeys [e] := by
        rw [hspl, histKeys_append]
      have hmemE : ∀ k ∈ entryKeys e, k ∈ ps := by
        intro k hk
        apply hcov
        rw [hkeys]
        refine List.mem_append.mpr (Or.inr ?_)
        simpa [histKeys] using hk
      have hcov' : ∀ k ∈ histKeys (e0 :: r), k ∈ ps := by
        intro k hk
        apply hcov
        rw [hkeys]
        exact List.mem_append.mpr (Or.inl hk)
      have hrest' : ∀ h ∈ r, h.action ≠ .REGISTERED ∧ ∃ f, h.fromParty = some f ∧ f ≠ "" :=
        fun h hm => hrest h (List.mem_append.mpr (Or.inl hm))
      obtain ⟨hne, f, hf, hfne⟩ := hrest e (List.mem_append.mpr (Or.inr (by simp)))
      have hko : lower e.owner ∈ ps := hmemE (lower e.owner) (by simp [entryKeys])
      have hkf : lower f ∈ ps := hmemE (lower f) (by simp [entryKeys, hf])
      have hsold1 : soldTotal [e] = (if e.action = .PURCHASED then e.unitsPurchased else 0) := by
        simp [soldTotal]
      rw [hspl, sumAvail_append, soldTotal_append, ih hrest' hcov', hsold1]
      cases hA : e.action with
      | REGISTERED => exact absurd hA hne
      | TRANSFERRED =>
          rw [sumAvail_single_transferred total e hA hf hfne ps hnd hko hkf]
          simp [hA]
      | PURCHASED =>
          rw [sumAvail_single_purchased total e hA hf hfne ps hnd hkf]
          simp [hA]
          ring

theorem soldTotal_nonneg {l : List HistEntry} (h : ∀ e ∈ l, 0 ≤ e.unitsPurchased) :
    0 ≤ soldTotal l := by
  induction l with
  | nil => simp [soldTotal]
  | cons x t ih =>
      have hx := h x (by simp)
      have ht := ih (fun e he => h e (by simp [he]))
      simp only [soldTotal]
      by_cases hp : x.action = .PURCHASED
      · rw [if_pos hp]
        omega
      · rw [if_neg hp]
        omega

/-- A transfer requesting more than the replayed balance is rejected with
the available and requested amounts, before any write. -/
theorem transferOp_insufficient {s : ServerState} {a b ne nr : String} {u t : Int} {med : Medicine}
    (h1 : ne ≠ "") (h2 : nr ≠ "") (hu : 0 < u)
    (hfind : findMedicine s b = some med) (hstat : med.status = Status.ACTIVE)
    (hlt : availableUnits med.totalUnits med.ownerHistory (lower a) < u) :
    transferOp s a b ne nr u t =
      .error (.insufficientUnits (availableUnits med.totalUnits med.ownerHistory (lower a)) u) := by
  have hm : ¬ (ne = "" ∨ nr = "" ∨ u = 0) := by
    push_neg
    exact ⟨h1, h2, by omega⟩
  have hle : ¬ u ≤ 0 := by omega
  have hst : ¬ med.status ≠ Status.ACTIVE := by simp [hstat]
  simp [transferOp, hm, hle, hfind, hst, hlt]

/-- A sale requesting more than the (nonzero) replayed balance is
rejected; the response carries only the available amount. -/
theorem purchaseOp_insufficient {s : ServerState} {a b : String} {c : Option String}
    {u t : Int} {med : Medicine}
    (hu : 0 < u) (hfind : findMedicine s b = some med) (hstat : med.status = Status.ACTIVE)
    (hnz : availableUnits med.totalUnits med.ownerHistory (lower a) ≠ 0)
    (hlt : availableUnits med.totalUnits med.ownerHistory (lower a) < u) :
    purchaseOp s a b c u t =
      .error (.insufficientStock (availableUnits med.totalUnits med.ownerHistory (lower a))) := by
  have hle : ¬ u ≤ 0 := by omega
  have hst : ¬ med.status ≠ Status.ACTIVE := by simp [hstat]
  simp [purchaseOp, hle, hfind, hst, hnz, hlt]

/-- A sale by a party with zero replayed balance is rejected with the
distinct no-units response. -/
theorem purchaseOp_noUnits {s : ServerState} {a b : String} {c : Option String}
    {u t : Int} {med : Medicine}
    (hu : 0 < u) (hfind : findMedicine s b = some med) (hstat : med.status = Status.ACTIVE)
    (hz : availableUnits med.totalUnits med.ownerHistory (lower a) = 0) :
    purchaseOp s a b c u t = .error (.noUnitsToSell med.currentOwner a) := by
  have hle : ¬ u ≤ 0 := by omega
  have hst : ¬ med.status ≠ Status.ACTIVE := by simp [hstat]
  simp [purchaseOp, hle, hfind, hst, hz]

/-- Register with a negative unit count is rejected as invalid, even when
the batch already exists (the unit check runs first). -/
theorem registerOp_invalidUnits {s : ServerState} {a r b n m md ed : String} {u t : Int}
    (hb : b ≠ "") (hn : n ≠ "") (hm : m ≠ "") (hmd : md ≠ "") (hed : ed ≠ "")
    (hu : u < 0) :
    registerOp s a r b n m md ed u t = .error .invalidUnits := by
  have hmiss : ¬ (b = "" ∨ n = "" ∨ m = "" ∨ md = "" ∨ ed = "" ∨ u = 0) := by
    push_neg
    exact ⟨hb, hn, hm, hmd, hed, by omega⟩
  have hle : u ≤ 0 := by omega
  simp [registerOp, hmiss, hle]

/-- Register with a zero / missing unit count is rejected as a missing
field (JS falsy check). -/
theorem registerOp_missing {s : ServerState} {a r b n m md ed : String} {t : Int} :
    registerOp s a r b n m md ed 0 t = .error .missingFields := by
  simp [registerOp]

/-- Register of an existing batch id with valid units is rejected as
already registered. -/
theorem registerOp_exists {s : ServerState} {a r b n m md ed : String} {u t : Int} {m0 : Medicine}
    (hb : b ≠ "") (hn : n ≠ "") (hm : m ≠ "") (hmd : md ≠ "") (hed : ed ≠ "")
    (hu : 0 < u) (hfind : findMedicine s b = some m0) :
    registerOp s a r b n m md ed u t = .error .batchExists := by
  have hmiss : ¬ (b = "" ∨ n = "" ∨ m = "" ∨ md = "" ∨ ed = "" ∨ u = 0) := by
    push_neg
    exact ⟨hb, hn, hm, hmd, hed, by omega⟩
  have hle : ¬ u ≤ 0 := by omega
  simp [registerOp, hmiss, hle, hfind]

/-- Register of a fresh batch id with any positive unit count succeeds
and creates exactly the documented record (no upper bound applies). -/
theorem registerOp_success {s : ServerState} {a r b n m md ed : String} {u t : Int}
    (hb : b ≠ "") (hn : n ≠ "") (hm : m ≠ "") (hmd : md ≠ "") (hed : ed ≠ "")
    (hu : 0 < u) (hfind : findMedicine s b = none) :
    registerOp s a r b n m md ed u t = .ok
      { s with medicines := s.medicines ++
          [{ batchID := b, name := n, manufacturer := m, mfgDate := md, expDate := ed,
             totalUnits := u, remainingUnits := u, currentOwner := a, status := .ACTIVE,
             ownerHistory := [⟨a, r, .REGISTERED, 0, none, t⟩],
             trustScore := none, integrityHash := none, createdAt := t }] } := by
  have hmiss : ¬ (b = "" ∨ n = "" ∨ m = "" ∨ md = "" ∨ ed = "" ∨ u = 0) := by
    push_neg
    exact ⟨hb, hn, hm, hmd, hed, by omega⟩
  have hle : ¬ u ≤ 0 := by omega
  simp [registerOp, hmiss, hle, hfind]

/-- A missing, empty or mismatching signature: the call answers normally
with the tampered outcome, logs an anomalous scan, and touches neither
the medicine collection nor anything else. -/
theorem verifyOp_sigInvalid {sign hash : String → String} {pd : String → Option Int} {now : Int}
    {s : ServerState} {batchID : String} {sig : Option String}
    {location deviceId user : Option String} {t : Int}
    (h : sigInvalid sig (sign batchID) = true) :
    verifyOp sign hash pd now s batchID sig location deviceId user t =
      (VerifyResult.fakeTampered batchID,
        { s with
            scanLogs := s.scanLogs ++ [⟨batchID, "❌ FAKE (QR tampered)", "UNKNOWN", t,
              jsOr location "UNKNOWN", jsOr deviceId "UNKNOWN", jsOr user "UNKNOWN", true⟩],
            audits := s.audits ++ [⟨"QR_VERIFICATION_FAIL", jsOr user "UNKNOWN", batchID⟩] }) := by
  simp [verifyOp, h]

/-- The successful verification branch: the score and reasons come from
the scan history as stored before this call, the new scan is appended
with the derived anomaly flag, and the found document gains the score and
integrity hash. -/
theorem verifyOp_success {sign hash : String → String} {pd : String → Option Int} {now : Int}
    {s : ServerState} {batchID : String} {sig : Option String}
    {location deviceId user : Option String} {t : Int} {med : Medicine}
    (hsig : sigInvalid sig (sign batchID) = false)
    (hfind : findMedicine s batchID = some med)
    (hblk : med.status ≠ Status.BLOCKED) :
    verifyOp sign hash pd now s batchID sig location deviceId user t =
      (VerifyResult.verified batchID
        (decide ((calculateTrustScore pd now med
          (s.scanLogs.filter (fun l => l.batchID == batchID))).1 < 70))
        (calculateTrustScore pd now med (s.scanLogs.filter (fun l => l.batchID == batchID))).1
        (calculateTrustScore pd now med (s.scanLogs.filter (fun l => l.batchID == batchID))).2
        { med with
            trustScore := some (calculateTrustScore pd now med
              (s.scanLogs.filter (fun l => l.batchID == batchID))).1,
            integrityHash := some (computeIntegrityHash hash med) }
        med.ownerHistory,
       { (updateMedicine s { med with
            trustScore := some (calculateTrustScore pd now med
              (s.scanLogs.filter (fun l => l.batchID == batchID))).1,
            integrityHash := some (computeIntegrityHash hash med) }) with
          scanLogs := s.scanLogs ++ [⟨batchID,
            (if decide ((calculateTrustScore pd now med
                (s.scanLogs.filter (fun l => l.batchID == batchID))).1 < 70)
             then "⚠️ SUSPICIOUS" else "✅ GENUINE"),
            jsOr user "UNKNOWN", t, jsOr location "UNKNOWN", jsOr deviceId "UNKNOWN",
            jsOr user "UNKNOWN",
            decide ((calculateTrustScore pd now med
              (s.scanLogs.filter (fun l => l.batchID == batchID))).1 < 70)⟩],
          audits := s.audits ++ [⟨"QR_VERIFICATION", jsOr user "UNKNOWN", batchID⟩] }) := by
  have hs : ¬ sigInvalid sig (sign batchID) = true := by simp [hsig]
  simp [verifyOp, hs, hfind, hblk]

theorem any_timeAfterUpdatedAt (logs : List ScanEntry) :
    logs.any (fun l => timeAfterUpdatedAt l.time) = false := by
  simp [timeAfterUpdatedAt]

/-- The trust score, written as the clamp of 100 minus the five
deductions. -/
theorem calculateTrustScore_score (pd : String → Option Int) (now : Int)
    (med : Medicine) (logs : List ScanEntry) :
    (calculateTrustScore pd now med logs).1 =
      max 0 (min 100 (100
        - ded (decide (deviceCount logs > 3)) 20
        - ded (decide (logs.length > 10)) 15
        - ded (decide (locationCount logs > 2)) 15
        - ded ((decide (med.status ≠ Status.ACTIVE))
            && logs.any (fun l => timeAfterUpdatedAt l.time)) 30
        - ded (expiredB pd now med.expDate) 10)) := rfl

theorem ded_nonneg {c : Bool} {k : Int} (hk : 0 ≤ k) : 0 ≤ ded c k := by
  cases c <;> simp [ded, hk]

theorem ded_le {c : Bool} {k : Int} (hk : 0 ≤ k) : ded c k ≤ k := by
  cases c <;> simp [ded, hk]

theorem ded_mono {a b : Bool} {k : Int} (hk : 0 ≤ k) (h : a = true → b = true) :
    ded a k ≤ ded b k := by
  cases a with
  | false => cases b <;> simp [ded, hk]
  | true => rw [h rfl]

theorem deviceCount_le_append (logs extra : List ScanEntry) :
    deviceCount logs ≤ deviceCount (logs ++ extra) := by
  unfold deviceCount
  rw [List.map_append, List.toFinset_append]
  exact Finset.card_le_card Finset.subset_union_left

theorem locationCount_le_append (logs extra : List ScanEntry) :
    locationCount logs ≤ locationCount (logs ++ extra) := by
  unfold locationCount
  rw [List.map_append, List.toFinset_append]
  exact Finset.card_le_card Finset.subset_union_left

instance instDecEqExcept {e a : Type} [DecidableEq e] [DecidableEq a] :
    DecidableEq (Except e a) := fun x y =>
  match x, y with
  | .error v, .error w =>
      if h : v = w then isTrue (congrArg Except.error h)
      else isFalse (fun hh => h (by injection hh))
  | .ok v, .ok w =>
      if h : v = w then isTrue (congrArg Except.ok h)
      else isFalse (fun hh => h (by injection hh))
  | .error _, .ok _ => isFalse (fun hh => Except.noConfusion hh)
  | .ok _, .error _ => isFalse (fun hh => Except.noConfusion hh)

/-- Trivial date parser used by the concrete exhibits (no string parses
as a date). -/
def pdNone : String → Option Int := fun _ => none

/-- Identity signer / hasher standing in for the HMAC and sha256
parameters in the concrete exhibits. -/
def idSign : String → String := fun s => s

/-- Batch `B4` after `register(mfg@x, 100)` and `transfer(mfg@x → dist@y, 70)`. -/
def exMedB4 : Medicine :=
  { batchID := "B4", name := "Med", manufacturer := "M", mfgDate := "d1", expDate := "d2",
    totalUnits := 100, remainingUnits := 30, currentOwner := "mfg@x", status := .ACTIVE,
    ownerHistory := [⟨"mfg@x", "MANUFACTURER", .REGISTERED, 0, none, 0⟩,
                     ⟨"dist@y", "DISTRIBUTOR", .TRANSFERRED, 70, some "mfg@x", 1⟩],
    trustScore := none, integrityHash := none, createdAt := 0 }

def exS1 : ServerState := ⟨[exMedB4], [], []⟩

/-- Batch `B1` after the spec scenario's first three steps: register 100
to `mfg@x`, transfer 40 to `dist@y`, `dist@y` sells 40. -/
def exMedSpec2 : Medicine :=
  { batchID := "B1", name := "Med", manufacturer := "M", mfgDate := "d1", expDate := "d2",
    totalUnits := 100, remainingUnits := 60, currentOwner := "mfg@x", status := .ACTIVE,
    ownerHistory := [⟨"mfg@x", "MANUFACTURER", .REGISTERED, 0, none, 0⟩,
                     ⟨"dist@y", "DISTRIBUTOR", .TRANSFERRED, 40, some "mfg@x", 1⟩,
                     ⟨"CUSTOMER", "CUSTOMER", .PURCHASED, 40, some "dist@y", 2⟩],
    trustScore := none, integrityHash := none, createdAt := 0 }

def exSpec2 : ServerState := ⟨[exMedSpec2], [], []⟩

/-- Batch `B1` after `mfg@x` then sells its remaining 60 units. -/
def exMedSpec3 : Medicine :=
  { exMedSpec2 with
      remainingUnits := 0
      status := Status.SOLD_OUT
      ownerHistory := exMedSpec2.ownerHistory ++
        [⟨"CUSTOMER", "CUSTOMER", .PURCHASED, 60, some "mfg@x", 3⟩] }

def exSpec3 : ServerState := ⟨[exMedSpec3], [], []⟩

/-- Batch `B2` after its registrant transferred all 100 units away:
`remainingUnits` is already 0 while the status is still `ACTIVE`. -/
def exMedT1 : Medicine :=
  { batchID := "B2", name := "Med", manufacturer := "M", mfgDate := "d1", expDate := "d2",
    totalUnits := 100, remainingUnits := 0, currentOwner := "mfg@x", status := .ACTIVE,
    ownerHistory := [⟨"mfg@x", "MANUFACTURER", .REGISTERED, 0, none, 0⟩,
                     ⟨"dist@y", "DISTRIBUTOR", .TRANSFERRED, 100, some "mfg@x", 1⟩],
    trustScore := none, integrityHash := none, createdAt := 0 }

def exT1 : ServerState := ⟨[exMedT1], [], []⟩

/-- Batch `B2` after the non-registrant `dist@y` sells 60 of its 100. -/
def exMedT2 : Medicine :=
  { exMedT1 with
      status := Status.SOLD_OUT
      ownerHistory := exMedT1.ownerHistory ++
        [⟨"CUSTOMER", "CUSTOMER", .PURCHASED, 60, some "dist@y", 2⟩] }

def exT2 : ServerState := ⟨[exMedT2], [], []⟩

/-- Batch `B3` after a transfer of 40 away from the registrant and a
transfer of 40 back: `remainingUnits` is 60 while the registrant's
derived balance is 100. -/
def exMedU1 : Medicine :=
  { batchID := "B3", name := "Med", manufacturer := "M", mfgDate := "d1", expDate := "d2",
    totalUnits := 100, remainingUnits := 60, currentOwner := "mfg@x", status := .ACTIVE,
    ownerHistory := [⟨"mfg@x", "MANUFACTURER", .REGISTERED, 0, none, 0⟩,
                     ⟨"dist@y", "DISTRIBUTOR", .TRANSFERRED, 40, some "mfg@x", 1⟩,
                     ⟨"mfg@x", "MANUFACTURER", .TRANSFERRED, 40, some "dist@y", 2⟩],
    trustScore := none, integrityHash := none, createdAt := 0 }

def exU1 : ServerState := ⟨[exMedU1], [], []⟩

/-- Claim C1 (amended): over every reachable committed log the derived
available balance of every party is non-negative at every prefix, and an
over-drawing request commits nothing: a transfer whose units exceed the
actor's balance is rejected with an error carrying both the available and
the requested amounts, while a sell whose units exceed the actor's
nonzero balance is rejected with an insufficient-stock error carrying the
available amount only. -/
theorem C1_balance_invariant_and_rejections :
    (∀ (sign hash : String → String) (pd : String → Option Int) (s : ServerState),
        Reachable sign hash pd s → ∀ m ∈ s.medicines, ∀ (n : Nat) (u : String),
          0 ≤ availableUnits m.totalUnits (m.ownerHistory.take n) u)
    ∧ (∀ (s : ServerState) (a b ne nr : String) (u t : Int) (med : Medicine),
        ne ≠ "" → nr ≠ "" → 0 < u →
        findMedicine s b = some med → med.status = Status.ACTIVE →
        availableUnits med.totalUnits med.ownerHistory (lower a) < u →
        transferOp s a b ne nr u t =
          .error (.insufficientUnits (availableUnits med.totalUnits med.ownerHistory (lower a)) u))
    ∧ (∀ (s : ServerState) (a b : String) (c : Option String) (u t : Int) (med : Medicine),
        0 < u → findMedicine s b = some med → med.status = Status.ACTIVE →
        availableUnits med.totalUnits med.ownerHistory (lower a) ≠ 0 →
        availableUnits med.totalUnits med.ownerHistory (lower a) < u →
        purchaseOp s a b c u t =
          .error (.insufficientStock (availableUnits med.totalUnits med.ownerHistory (lower a)))) := by
  refine ⟨?_, ?_, ?_⟩
  · intro sign hash pd s hreach m hm n u
    exact ((reachable_stateInv hreach) m hm).prefNonneg n u
  · intro s a b ne nr u t med h1 h2 hu hfind hstat hlt
    exact transferOp_insufficient h1 h2 hu hfind hstat hlt
  · intro s a b c u t med hu hfind hstat hnz hlt
    exact purchaseOp_insufficient hu hfind hstat hnz hlt

theorem C1_witness :
    (Reachable idSign idSign pdNone exS1
      ∧ 0 ≤ availableUnits exMedB4.totalUnits (exMedB4.ownerHistory.take 2) "mfg@x")
    ∧ transferOp exS1 "mfg@x" "B4" "ph@z" "PHARMACY" 50 2 =
        .error (.insufficientUnits
          (availableUnits exMedB4.totalUnits exMedB4.ownerHistory (lower "mfg@x")) 50)
    ∧ purchaseOp exS1 "mfg@x" "B4" none 50 2 =
        .error (.insufficientStock
          (availableUnits exMedB4.totalUnits exMedB4.ownerHistory (lower "mfg@x"))) := by
  have hreach : Reachable idSign idSign pdNone exS1 :=
    ⟨[.register "mfg@x" "MANUFACTURER" "B4" "Med" "M" "d1" "d2" 100 0,
      .transfer "mfg@x" "B4" "dist@y" "DISTRIBUTOR" 70 1], by decide, by decide⟩
  have hfind : findMedicine exS1 "B4" = some exMedB4 := by decide
  exact ⟨⟨hreach, C1_balance_invariant_and_rejections.1 idSign idSign pdNone exS1 hreach
            exMedB4 (by decide) 2 "mfg@x"⟩,
         C1_balance_invariant_and_rejections.2.1 exS1 "mfg@x" "B4" "ph@z" "PHARMACY" 50 2
           exMedB4 (by decide) (by decide) (by decide) hfind (by decide) (by decide),
         C1_balance_invariant_and_rejections.2.2 exS1 "mfg@x" "B4" none 50 2
           exMedB4 (by decide) hfind (by decide) (by decide) (by decide)⟩

/-- Claim C1 is false as stated: at a reachable state where the seller's
balance is 30, a sell of 50 is answered with the insufficient-stock
response, whose body carries the available amount only — not an
`InsufficientBalance{available, requested}` payload. -/
theorem C1_counterexample :
    purchaseOp exS1 "mfg@x" "B4" none 50 2 = .error (.insufficientStock 30)
    ∧ LedgerErr.insufficientStock 30 ≠ LedgerErr.insufficientUnits 30 50 := by
  constructor
  · decide
  · decide

/-- Claim C2 (amended): an accepted sell appends its `PURCHASED` event
and sets `SOLD_OUT` exactly when the stored `remainingUnits` counter —
decremented only when the seller matches `currentOwner`
case-insensitively — is zero afterwards; the selling actor's own derived
balance is never consulted for the transition.  An accepted transfer
never changes the status. -/
theorem C2_soldout_rule :
    (∀ (s s' : ServerState) (a b : String) (c : Option String) (u t : Int),
       purchaseOp s a b c u t = .ok s' →
       ∃ med med', findMedicine s b = some med ∧ findMedicine s' b = some med' ∧
         med.status = Status.ACTIVE ∧
         med'.ownerHistory = med.ownerHistory ++
           [⟨jsOr c "CUSTOMER", "CUSTOMER", .PURCHASED, u, some a, t⟩] ∧
         med'.remainingUnits = med.remainingUnits -
           (if lower med.currentOwner == lower a then u else 0) ∧
         (med'.status = Status.SOLD_OUT ↔ med'.remainingUnits = 0))
    ∧ (∀ (s s' : ServerState) (a b ne nr : String) (u t : Int),
       transferOp s a b ne nr u t = .ok s' →
       ∃ med med', findMedicine s b = some med ∧ findMedicine s' b = some med' ∧
         med'.status = med.status) := by
  constructor
  · intro s s' a b c u t h
    obtain ⟨med, hfind, hstat, hu, hle, hnz, hs⟩ := purchaseOp_ok_shape h
    subst hs
    have hbid : med.batchID = b := findMedicine_batchID hfind
    refine ⟨med, _, hfind, findMedicine_update hfind hbid, hstat, rfl, rfl, ?_⟩
    simp only [beq_iff_eq]
    by_cases hr : med.remainingUnits - (if lower med.currentOwner = lower a then u else 0) = 0
    · simp [hr]
    · simp [hr, hstat]
  · intro s s' a b ne nr u t h
    obtain ⟨med, hfind, hstat, hu, hle, hnz, hs⟩ := transferOp_ok_shape h
    subst hs
    have hbid : med.batchID = b := findMedicine_batchID hfind
    exact ⟨med, _, hfind, findMedicine_update hfind hbid, rfl⟩

theorem C2_witness :
    purchaseOp exSpec2 "mfg@x" "B1" none 60 3 = .ok exSpec3
    ∧ (∃ med med', findMedicine exSpec2 "B1" = some med ∧
        findMedicine exSpec3 "B1" = some med' ∧
        med.status = Status.ACTIVE ∧
        med'.ownerHistory = med.ownerHistory ++
          [⟨jsOr none "CUSTOMER", "CUSTOMER", .PURCHASED, 60, some "mfg@x", 3⟩] ∧
        med'.remainingUnits = med.remainingUnits -
          (if lower med.currentOwner == lower "mfg@x" then 60 else 0) ∧
        (med'.status = Status.SOLD_OUT ↔ med'.remainingUnits = 0)) := by
  have h : purchaseOp exSpec2 "mfg@x" "B1" none 60 3 = .ok exSpec3 := by decide
  exact ⟨h, C2_soldout_rule.1 exSpec2 exSpec3 "mfg@x" "B1" none 60 3 h⟩

/-- Claim C2 is false as stated: from a reachable state where the
registrant has transferred everything away, a sale of 60 by the
non-registrant holder `dist@y` — whose balance stays 40, not 0 — flips
the status to `SOLD_OUT` instead of leaving it `ACTIVE`. -/
theorem C2_counterexample :
    Reachable idSign idSign pdNone exT1
    ∧ purchaseOp exT1 "dist@y" "B2" none 60 2 = .ok exT2
    ∧ findMedicine exT2 "B2" = some exMedT2
    ∧ exMedT2.status = Status.SOLD_OUT
    ∧ exMedT2.currentOwner = "mfg@x"
    ∧ availableUnits exMedT2.totalUnits exMedT2.ownerHistory (lower "dist@y") = 40 := by
  refine ⟨⟨[.register "mfg@x" "MANUFACTURER" "B2" "Med" "M" "d1" "d2" 100 0,
            .transfer "mfg@x" "B2" "dist@y" "DISTRIBUTOR" 100 1], by decide, by decide⟩,
          by decide, by decide, by decide, by decide, by decide⟩

/-- Batch `B7`, active and verifiable. -/
def exMedB7 : Medicine :=
  { batchID := "B7", name := "Med", manufacturer := "M", mfgDate := "d1", expDate := "d2",
    totalUnits := 100, remainingUnits := 100, currentOwner := "mfg@x", status := .ACTIVE,
    ownerHistory := [⟨"mfg@x", "MANUFACTURER", .REGISTERED, 0, none, 0⟩],
    trustScore := none, integrityHash := none, createdAt := 0 }

def exScanB7 : ScanEntry := ⟨"B7", "✅ GENUINE", "u", 0, "L", "dv", "u", false⟩

/-- A store holding `B7` and ten prior scans of it. -/
def exW0 : ServerState := ⟨[exMedB7], List.replicate 10 exScanB7, []⟩

/-- `B7` as stored after an eleventh verification: score 100 over the ten
prior scans, integrity hash of the document. -/
def exMedB7v : Medicine :=
  { exMedB7 with
      trustScore := some 100
      integrityHash := some "B7|Med|d2|mfg@x|ACTIVE" }

/-- Claim C3 (amended): on a verify call with a matching signature, an
existing batch, and a non-BLOCKED status, the score and reasons are
computed over the batch's stored scan history as it was before this call
— the entry about to be written is not included; the new scan entry is
then appended with the anomaly flag derived from that score, and the
stored document receives `trustScore` and `integrityDigest` before the
success result (score, reasons, full ownership history) is returned. -/
theorem C3_verify_success :
    ∀ (sign hash : String → String) (pd : String → Option Int) (now : Int)
      (s : ServerState) (batchID : String) (sig : Option String)
      (location deviceId user : Option String) (t : Int) (med : Medicine),
      sigInvalid sig (sign batchID) = false →
      findMedicine s batchID = some med →
      med.status ≠ Status.BLOCKED →
      verifyOp sign hash pd now s batchID sig location deviceId user t =
        (VerifyResult.verified batchID
          (decide ((calculateTrustScore pd now med
            (s.scanLogs.filter (fun l => l.batchID == batchID))).1 < 70))
          (calculateTrustScore pd now med (s.scanLogs.filter (fun l => l.batchID == batchID))).1
          (calculateTrustScore pd now med (s.scanLogs.filter (fun l => l.batchID == batchID))).2
          { med with
              trustScore := some (calculateTrustScore pd now med
                (s.scanLogs.filter (fun l => l.batchID == batchID))).1
              integrityHash := some (computeIntegrityHash hash med) }
          med.ownerHistory,
         { (updateMedicine s { med with
              trustScore := some (calculateTrustScore pd now med
                (s.scanLogs.filter (fun l => l.batchID == batchID))).1
              integrityHash := some (computeIntegrityHash hash med) }) with
            scanLogs := s.scanLogs ++ [⟨batchID,
              (if decide ((calculateTrustScore pd now med
                  (s.scanLogs.filter (fun l => l.batchID == batchID))).1 < 70)
               then "⚠️ SUSPICIOUS" else "✅ GENUINE"),
              jsOr user "UNKNOWN", t, jsOr location "UNKNOWN", jsOr deviceId "UNKNOWN",
              jsOr user "UNKNOWN",
              decide ((calculateTrustScore pd now med
                (s.scanLogs.filter (fun l => l.batchID == batchID))).1 < 70)⟩]
            audits := s.audits ++ [⟨"QR_VERIFICATION", jsOr user "UNKNOWN", batchID⟩] })
      ∧ findMedicine (verifyOp sign hash pd now s batchID sig location deviceId user t).2 batchID
          = some { med with
              trustScore := some (calculateTrustScore pd now med
                (s.scanLogs.filter (fun l => l.batchID == batchID))).1
              integrityHash := some (computeIntegrityHash hash med) } := by
  intro sign hash pd now s batchID sig location deviceId user t med hsig hfind hblk
  refine ⟨verifyOp_success hsig hfind hblk, ?_⟩
  rw [verifyOp_success hsig hfind hblk]
  have hmb : med.batchID = batchID := findMedicine_batchID hfind
  exact @findMedicine_update s batchID med _ hfind hmb

theorem C3_witness :
    sigInvalid (some "B7") (idSign "B7") = false
    ∧ findMedicine exW0 "B7" = some exMedB7
    ∧ exMedB7.status ≠ Status.BLOCKED
    ∧ findMedicine (verifyOp idSign idSign pdNone 0 exW0 "B7" (some "B7") none none none 5).2 "B7"
        = some { exMedB7 with
            trustScore := some (calculateTrustScore pdNone 0 exMedB7
              (exW0.scanLogs.filter (fun l => l.batchID == "B7"))).1
            integrityHash := some (computeIntegrityHash idSign exMedB7) } :=
  ⟨by decide, by decide, by decide,
   (C3_verify_success idSign idSign pdNone 0 exW0 "B7" (some "B7") none none none 5 exMedB7
     (by decide) (by decide) (by decide)).2⟩

/-- Claim C3 is false as stated: with ten scans already logged, the
eleventh verification returns and stores score 100, computed without the
entry being written for this very call; the score over the history
including that entry would be 85. -/
theorem C3_counterexample :
    (verifyOp idSign idSign pdNone 0 exW0 "B7" (some "B7") none none none 5).1 =
      VerifyResult.verified "B7" false 100 [] exMedB7v exMedB7.ownerHistory
    ∧ calculateTrustScore pdNone 0 exMedB7
        ((verifyOp idSign idSign pdNone 0 exW0 "B7" (some "B7") none none none 5).2.scanLogs.filter
          (fun l => l.batchID == "B7")) = (85, ["High scan frequency"])
    ∧ (100 : Int) ≠ 85 :=
  ⟨by decide, by decide, by decide⟩

/-- Claim C4: over every reachable state, the balances of the batch's
parties (any duplicate-free covering list) sum to `totalUnits` minus the
units recorded in `PURCHASED` events, and never exceed `totalUnits`. -/
theorem C4_conservation :
    ∀ (sign hash : String → String) (pd : String → Option Int) (s : ServerState),
      Reachable sign hash pd s → ∀ m ∈ s.medicines,
      ∀ ps : List String, ps.Nodup → (∀ k ∈ histKeys m.ownerHistory, k ∈ ps) →
        sumAvail m.totalUnits m.ownerHistory ps = m.totalUnits - soldTotal m.ownerHistory
        ∧ sumAvail m.totalUnits m.ownerHistory ps ≤ m.totalUnits := by
  intro sign hash pd s hreach m hm ps hnd hcov
  have inv := (reachable_stateInv hreach) m hm
  obtain ⟨e0, rest, hsplit, h0a, h0o, h0f, h0u, hrest⟩ := inv.shape
  have hcons : sumAvail m.totalUnits m.ownerHistory ps
      = m.totalUnits - soldTotal m.ownerHistory := by
    rw [hsplit]
    exact conservation_of_shape m.totalUnits e0 rest h0a
      (fun h hm2 => ⟨(hrest h hm2).1, (hrest h hm2).2.2⟩) ps hnd
      (fun k hk => hcov k (by rw [hsplit]; exact hk))
  refine ⟨hcons, ?_⟩
  have hsn : 0 ≤ soldTotal m.ownerHistory := by
    apply soldTotal_nonneg
    intro e he
    rw [hsplit] at he
    rcases List.mem_cons.mp he with h | h
    · rw [h, h0u]
    · exact le_of_lt (hrest e h).2.1
  omega

theorem C4_witness :
    (Reachable idSign idSign pdNone exS1
      ∧ (["mfg@x", "dist@y"] : List String).Nodup
      ∧ (∀ k ∈ histKeys exMedB4.ownerHistory, k ∈ (["mfg@x", "dist@y"] : List String)))
    ∧ sumAvail exMedB4.totalUnits exMedB4.ownerHistory ["mfg@x", "dist@y"]
        = exMedB4.totalUnits - soldTotal exMedB4.ownerHistory
    ∧ sumAvail exMedB4.totalUnits exMedB4.ownerHistory ["mfg@x", "dist@y"]
        ≤ exMedB4.totalUnits := by
  have hreach : Reachable idSign idSign pdNone exS1 :=
    ⟨[.register "mfg@x" "MANUFACTURER" "B4" "Med" "M" "d1" "d2" 100 0,
      .transfer "mfg@x" "B4" "dist@y" "DISTRIBUTOR" 70 1], by decide, by decide⟩
  have h := C4_conservation idSign idSign pdNone exS1 hreach exMedB4 (by decide)
    ["mfg@x", "dist@y"] (by decide) (by decide)
  exact ⟨⟨hreach, by decide, by decide⟩, h.1, h.2⟩

/-- Claim C5 (amended): register validates the parsed `totalUnits` first
— a zero / absent value is a missing field, a negative one an invalid
unit count, both reported even when the batch id already exists — then
rejects an already registered `batchID`, and otherwise creates the batch
with status ACTIVE, all units remaining, and a single `REGISTERED` event
crediting the actor.  No upper bound on `totalUnits` is enforced. -/
theorem C5_register_rules :
    ∀ (s : ServerState) (a r b n m md ed : String) (u t : Int),
      b ≠ "" → n ≠ "" → m ≠ "" → md ≠ "" → ed ≠ "" →
      ((u = 0 → registerOp s a r b n m md ed u t = .error .missingFields)
      ∧ (u < 0 → registerOp s a r b n m md ed u t = .error .invalidUnits)
      ∧ (0 < u → ∀ m0, findMedicine s b = some m0 →
            registerOp s a r b n m md ed u t = .error .batchExists)
      ∧ (0 < u → findMedicine s b = none →
            registerOp s a r b n m md ed u t = .ok
              { s with medicines := s.medicines ++
                  [{ batchID := b, name := n, manufacturer := m, mfgDate := md, expDate := ed,
                     totalUnits := u, remainingUnits := u, currentOwner := a, status := .ACTIVE,
                     ownerHistory := [⟨a, r, .REGISTERED, 0, none, t⟩],
                     trustScore := none, integrityHash := none, createdAt := t }] })) := by
  intro s a r b n m md ed u t hb hn hm hmd hed
  refine ⟨?_, ?_, ?_, ?_⟩
  · intro h0
    subst h0
    exact registerOp_missing
  · intro hneg
    exact registerOp_invalidUnits hb hn hm hmd hed hneg
  · intro hpos m0 hfind
    exact registerOp_exists hb hn hm hmd hed hpos hfind
  · intro hpos hnone
    exact registerOp_success hb hn hm hmd hed hpos hnone

theorem C5_witness :
    ((0:Int) < 1000001 ∧ findMedicine initialState "B9" = none)
    ∧ registerOp initialState "mfg@x" "MANUFACTURER" "B9" "Med" "M" "d1" "d2" 1000001 0 = .ok
        { initialState with medicines := initialState.medicines ++
            [{ batchID := "B9", name := "Med", manufacturer := "M", mfgDate := "d1",
               expDate := "d2", totalUnits := 1000001, remainingUnits := 1000001,
               currentOwner := "mfg@x", status := .ACTIVE,
               ownerHistory := [⟨"mfg@x", "MANUFACTURER", .REGISTERED, 0, none, 0⟩],
               trustScore := none, integrityHash := none, createdAt := 0 }] } :=
  ⟨⟨by decide, by decide⟩,
   (C5_register_rules initialState "mfg@x" "MANUFACTURER" "B9" "Med" "M" "d1" "d2" 1000001 0
     (by decide) (by decide) (by decide) (by decide) (by decide)).2.2.2
     (by decide) (by decide)⟩

/-- Claim C5 is false as stated: a `totalUnits` of 1,000,001 is accepted
rather than rejected, and a register of an existing batch id with a
negative unit count reports the invalid-unit error, not
batch-already-exists. -/
theorem C5_counterexample :
    registerOp initialState "mfg@x" "MANUFACTURER" "B9" "Med" "M" "d1" "d2" 1000001 0 =
      .ok ⟨[{ batchID := "B9", name := "Med", manufacturer := "M", mfgDate := "d1",
              expDate := "d2", totalUnits := 1000001, remainingUnits := 1000001,
              currentOwner := "mfg@x", status := .ACTIVE,
              ownerHistory := [⟨"mfg@x", "MANUFACTURER", .REGISTERED, 0, none, 0⟩],
              trustScore := none, integrityHash := none, createdAt := 0 }], [], []⟩
    ∧ registerOp exS1 "mfg@x" "MANUFACTURER" "B4" "Med" "M" "d1" "d2" (-1) 2 =
        .error .invalidUnits :=
  ⟨by decide, by decide⟩

/-- A blocked batch with a scan logged after any plausible modification
time: the input on which the spec expects the −30 deduction. -/
def exMedBlocked : Medicine :=
  { batchID := "B8", name := "Med", manufacturer := "M", mfgDate := "d1", expDate := "",
    totalUnits := 100, remainingUnits := 100, currentOwner := "mfg@x", status := .BLOCKED,
    ownerHistory := [⟨"mfg@x", "MANUFACTURER", .REGISTERED, 0, none, 0⟩],
    trustScore := none, integrityHash := none, createdAt := 0 }

def exLateScan : ScanEntry := ⟨"B8", "❌ BLOCKED", "u", 10, "L", "dv", "u", true⟩

/-- Claim C6: the post-sold/consumed/expired deduction can never fire —
the schema stores no `updatedAt`, so the source's `l.time >
medicine.updatedAt` compares against `undefined` and is always false; in
particular a blocked batch scanned later still scores 100 with no
reasons, where the specified rule demands 70. -/
theorem C6_postsold_deduction_vacuous :
    (∀ (pd : String → Option Int) (now : Int) (med : Medicine) (logs : List ScanEntry),
        ((calculateTrustScore pd now med logs).2.contains
          "Scans after sold/consumed/expired") = false)
    ∧ calculateTrustScore pdNone 0 exMedBlocked [exLateScan] = (100, []) := by
  constructor
  · intro pd now med logs
    have hany := any_timeAfterUpdatedAt logs
    by_cases c1 : deviceCount logs > 3 <;> by_cases c2 : logs.length > 10 <;>
      by_cases c3 : locationCount logs > 2 <;>
      by_cases c5 : expiredB pd now med.expDate = true <;>
      simp [calculateTrustScore, hany, c1, c2, c3, c5]
  · decide

/-- Claim C7: any verification of an active, unexpired batch whose scan
history shows exactly 4 distinct devices, at most 10 scans, and 1
location scores exactly 80 = 100 − 20 and is not flagged anomalous. -/
theorem C7_four_devices_score :
    ∀ (pd : String → Option Int) (now : Int) (med : Medicine) (logs : List ScanEntry),
      med.status = Status.ACTIVE →
      expiredB pd now med.expDate = false →
      deviceCount logs = 4 →
      logs.length ≤ 10 →
      locationCount logs = 1 →
      (calculateTrustScore pd now med logs).1 = 80
      ∧ ¬ ((calculateTrustScore pd now med logs).1 < 70) := by
  intro pd now med logs hstat hexp hdev hlen hloc
  have hany := any_timeAfterUpdatedAt logs
  have hc1 : decide (deviceCount logs > 3) = true := by
    simp [hdev]
  have hc2 : decide (logs.length > 10) = false := by
    simp
    omega
  have hc3 : decide (locationCount logs > 2) = false := by
    simp [hloc]
  have hc4 : decide (med.status ≠ Status.ACTIVE) = false := by
    simp [hstat]
  constructor <;>
    rw [calculateTrustScore_score, hc1, hc2, hc3, hc4, hany, hexp] <;>
    decide

def exScan4 (d : String) : ScanEntry := ⟨"B7", "✅ GENUINE", "u", 0, "L", d, "u", false⟩

theorem C7_witness :
    (exMedB7.status = Status.ACTIVE
      ∧ expiredB pdNone 0 exMedB7.expDate = false
      ∧ deviceCount [exScan4 "d1", exScan4 "d2", exScan4 "d3", exScan4 "d4"] = 4
      ∧ ([exScan4 "d1", exScan4 "d2", exScan4 "d3", exScan4 "d4"] : List ScanEntry).length ≤ 10
      ∧ locationCount [exScan4 "d1", exScan4 "d2", exScan4 "d3", exScan4 "d4"] = 1)
    ∧ (calculateTrustScore pdNone 0 exMedB7
        [exScan4 "d1", exScan4 "d2", exScan4 "d3", exScan4 "d4"]).1 = 80
    ∧ ¬ ((calculateTrustScore pdNone 0 exMedB7
        [exScan4 "d1", exScan4 "d2", exScan4 "d3", exScan4 "d4"]).1 < 70) := by
  have h := C7_four_devices_score pdNone 0 exMedB7
    [exScan4 "d1", exScan4 "d2", exScan4 "d3", exScan4 "d4"]
    (by decide) (by decide) (by decide) (by decide) (by decide)
  exact ⟨⟨by decide, by decide, by decide, by decide, by decide⟩, h.1, h.2⟩

/-- Claim C8: the trust score always lies in [0, 100], and appending scan
entries — however they change the device, location or frequency
statistics — never raises the score. -/
theorem C8_score_bounds_and_monotone :
    (∀ (pd : String → Option Int) (now : Int) (med : Medicine) (logs : List ScanEntry),
        0 ≤ (calculateTrustScore pd now med logs).1
        ∧ (calculateTrustScore pd now med logs).1 ≤ 100)
    ∧ (∀ (pd : String → Option Int) (now : Int) (med : Medicine) (logs extra : List ScanEntry),
        (calculateTrustScore pd now med (logs ++ extra)).1
          ≤ (calculateTrustScore pd now med logs).1) := by
  constructor
  · intro pd now med logs
    rw [calculateTrustScore_score]
    constructor
    · exact le_max_left 0 _
    · exact max_le (by norm_num) (min_le_left _ _)
  · intro pd now med logs extra
    rw [calculateTrustScore_score, calculateTrustScore_score,
      any_timeAfterUpdatedAt, any_timeAfterUpdatedAt]
    have h1 : ded (decide (deviceCount logs > 3)) 20
        ≤ ded (decide (deviceCount (logs ++ extra) > 3)) 20 := by
      apply ded_mono (by norm_num)
      intro h
      simp only [decide_eq_true_eq] at h ⊢
      have := deviceCount_le_append logs extra
      omega
    have h2 : ded (decide (logs.length > 10)) 15
        ≤ ded (decide ((logs ++ extra).length > 10)) 15 := by
      apply ded_mono (by norm_num)
      intro h
      simp only [decide_eq_true_eq, List.length_append] at h ⊢
      omega
    have h3 : ded (decide (locationCount logs > 2)) 15
        ≤ ded (decide (locationCount (logs ++ extra) > 2)) 15 := by
      apply ded_mono (by norm_num)
      intro h
      simp only [decide_eq_true_eq] at h ⊢
      have := locationCount_le_append logs extra
      omega
    apply max_le_max (le_refl 0)
    apply min_le_min (le_refl 100)
    omega

/-- Claim C9: a missing or mismatching signature yields the tampered
outcome as an ordinary returned result, appends one scan-log entry with
the anomaly flag set, and leaves the medicine collection — every field of
every batch — untouched. -/
theorem C9_fake_signature :
    ∀ (sign hash : String → String) (pd : String → Option Int) (now : Int)
      (s : ServerState) (batchID : String) (sig : Option String)
      (location deviceId user : Option String) (t : Int),
      sigInvalid sig (sign batchID) = true →
      (verifyOp sign hash pd now s batchID sig location deviceId user t).1 =
          VerifyResult.fakeTampered batchID
      ∧ (verifyOp sign hash pd now s batchID sig location deviceId user t).2.medicines
          = s.medicines
      ∧ (verifyOp sign hash pd now s batchID sig location deviceId user t).2.scanLogs
          = s.scanLogs ++ [⟨batchID, "❌ FAKE (QR tampered)", "UNKNOWN", t,
              jsOr location "UNKNOWN", jsOr deviceId "UNKNOWN", jsOr user "UNKNOWN", true⟩] := by
  intro sign hash pd now s batchID sig location deviceId user t h
  rw [verifyOp_sigInvalid h]
  exact ⟨rfl, rfl, rfl⟩

theorem C9_witness :
    sigInvalid (some "bad") (idSign "B7") = true
    ∧ (verifyOp idSign idSign pdNone 0 exW0 "B7" (some "bad") none none none 5).1 =
        VerifyResult.fakeTampered "B7"
    ∧ (verifyOp idSign idSign pdNone 0 exW0 "B7" (some "bad") none none none 5).2.medicines
        = exW0.medicines
    ∧ (verifyOp idSign idSign pdNone 0 exW0 "B7" (some "bad") none none none 5).2.scanLogs
        = exW0.scanLogs ++ [⟨"B7", "❌ FAKE (QR tampered)", "UNKNOWN", 5,
            jsOr none "UNKNOWN", jsOr none "UNKNOWN", jsOr none "UNKNOWN", true⟩] := by
  have h := C9_fake_signature idSign idSign pdNone 0 exW0 "B7" (some "bad") none none none 5
    (by decide)
  exact ⟨by decide, h.1, h.2.1, h.2.2⟩

/-- Claim C10 (amended): in every reachable state `currentOwner` still
names the registering actor (the head `REGISTERED` entry's owner — no
operation reassigns it), and `remainingUnits` equals `totalUnits` minus
the units of the `TRANSFERRED` and `PURCHASED` events whose source party
matches the registrant case-insensitively.  That quantity coincides with
the registrant's derived available balance only while no `TRANSFERRED`
event credits units back to the registrant. -/
theorem C10_owner_and_remaining :
    ∀ (sign hash : String → String) (pd : String → Option Int) (s : ServerState),
      Reachable sign hash pd s → ∀ m ∈ s.medicines,
        (∃ e0 rest, m.ownerHistory = e0 :: rest ∧ e0.action = .REGISTERED ∧
          e0.owner = m.currentOwner) ∧
        m.remainingUnits = m.totalUnits -
          (histTransferredOut (lower m.currentOwner) m.ownerHistory
           + histSold (lower m.currentOwner) m.ownerHistory) := by
  intro sign hash pd s h m hm
  have inv := (reachable_stateInv h) m hm
  obtain ⟨e0, rest, hsplit, h0a, h0o, h0f, h0u, hrest⟩ := inv.shape
  exact ⟨⟨e0, rest, hsplit, h0a, h0o⟩, inv.remEq⟩

theorem C10_witness :
    Reachable idSign idSign pdNone exU1
    ∧ (∃ e0 rest, exMedU1.ownerHistory = e0 :: rest ∧ e0.action = .REGISTERED ∧
        e0.owner = exMedU1.currentOwner)
    ∧ exMedU1.remainingUnits = exMedU1.totalUnits -
        (histTransferredOut (lower exMedU1.currentOwner) exMedU1.ownerHistory
         + histSold (lower exMedU1.currentOwner) exMedU1.ownerHistory) := by
  have hreach : Reachable idSign idSign pdNone exU1 :=
    ⟨[.register "mfg@x" "MANUFACTURER" "B3" "Med" "M" "d1" "d2" 100 0,
      .transfer "mfg@x" "B3" "dist@y" "DISTRIBUTOR" 40 1,
      .transfer "dist@y" "B3" "mfg@x" "MANUFACTURER" 40 2], by decide, by decide⟩
  have h := C10_owner_and_remaining idSign idSign pdNone exU1 hreach exMedU1 (by decide)
  exact ⟨hreach, h.1, h.2⟩

/-- Claim C10 is false as stated: after a transfer of 40 away from the
registrant and a transfer of 40 back, the cached `remainingUnits` is 60
while the registrant's event-log-derived available balance is 100. -/
theorem C10_counterexample :
    Reachable idSign idSign pdNone exU1
    ∧ findMedicine exU1 "B3" = some exMedU1
    ∧ exMedU1.currentOwner = "mfg@x"
    ∧ exMedU1.remainingUnits = 60
    ∧ availableUnits exMedU1.totalUnits exMedU1.ownerHistory (lower "mfg@x") = 100
    ∧ (60 : Int) ≠ 100 :=
  ⟨⟨[.register "mfg@x" "MANUFACTURER" "B3" "Med" "M" "d1" "d2" 100 0,
     .transfer "mfg@x" "B3" "dist@y" "DISTRIBUTOR" 40 1,
     .transfer "dist@y" "B3" "mfg@x" "MANUFACTURER" 40 2], by decide, by decide⟩,
   by decide, by decide, by decide, by decide, by decide⟩

end MediScan
